import Mathlib

/-!
Verification of the long-path/long-name scanner and remediator
(too-long-for-linux.py and too-long-for-linux-edit.py).

Python strings are modeled as their UTF-8 byte sequences: `List Nat`,
one element per byte.  `count_bytes` is then the list length.  Decoding
with the "ignore" error handler is modeled structurally: a maximal valid
UTF-8 sequence is kept, any byte that cannot start or complete one is
dropped.  All inputs reaching the decoder in the program are slices of
valid UTF-8 strings, for which this matches CPython byte for byte.
-/

set_option maxRecDepth 8000

/-- count_bytes: len(string.encode("utf-8")); strings are already byte lists here. -/
def count_bytes (s : List Nat) : Nat := s.length

/-- Continuation-byte test, byte & 0xC0 == 0x80 as in the source. -/
def isCont (b : Nat) : Bool := b &&& 192 == 128

/-- Number of bytes of the UTF-8 character introduced by lead byte b
(1 for ASCII and for bytes that cannot start a character). -/
def charLen (b : Nat) : Nat :=
  if b < 128 then 1
  else if b < 192 then 1
  else if b < 224 then 2
  else if b < 240 then 3
  else if b < 248 then 4
  else 1


/-- Decoding loop with fuel; each step consumes at least one byte, so
fuel equal to the byte count is always enough. -/
def decIgn : Nat → List Nat → List Nat
  | 0, _ => []
  | _ + 1, [] => []
  | f + 1, b :: rest =>
    if b < 128 then b :: decIgn f rest
    else if b < 192 then decIgn f rest
    else if b < 224 then
      match rest with
      | c :: r2 => if isCont c then b :: c :: decIgn f r2 else decIgn f rest
      | [] => []
    else if b < 240 then
      match rest with
      | c :: d :: r2 =>
        if isCont c && isCont d then b :: c :: d :: decIgn f r2
        else decIgn f rest
      | _ => decIgn f rest
    else if b < 248 then
      match rest with
      | c :: d :: e :: r2 =>
        if isCont c && isCont d && isCont e then b :: c :: d :: e :: decIgn f r2
        else decIgn f rest
      | _ => decIgn f rest
    else decIgn f rest

/-- bytes.decode("utf-8", "ignore"), re-encoded: keep each complete
UTF-8 sequence, drop undecodable bytes. -/
def decodeIgnore (l : List Nat) : List Nat := decIgn l.length l

/-- A byte string is valid UTF-8 for this model exactly when the ignoring
decoder keeps it unchanged. -/
abbrev Utf8OK (l : List Nat) : Prop := decodeIgnore l = l

/-- safe_truncate: keep the string if it fits, else decode-ignore its
first maxLength bytes. -/
def safe_truncate (s : List Nat) (maxLength : Nat) : List Nat :=
  if count_bytes s ≤ maxLength then s else decodeIgnore (s.take maxLength)

/-- The backward adjustment loop of split_filename / split_directory_name:
while split_point > 0 and the byte there is a continuation byte, step back. -/
def adjustBack (s : List Nat) : Nat → Nat
  | 0 => 0
  | p + 1 => if isCont (s.getD (p + 1) 0) then adjustBack s p else p + 1

/-- The split point chosen by split_filename / split_directory_name: the
byte midpoint adjusted backward to a boundary, with the raw midpoint as
fallback when the adjustment reaches 0. -/
def splitPointOf (stem : List Nat) : Nat :=
  if adjustBack stem (stem.length / 2) = 0 then stem.length / 2
  else adjustBack stem (stem.length / 2)

/-- The shared core of split_filename and split_directory_name (their
bodies are identical): cut the encoded base at the chosen split point and
decode both halves with errors ignored. -/
def splitBase (stem : List Nat) : List Nat × List Nat :=
  (decodeIgnore (stem.take (splitPointOf stem)),
   decodeIgnore (stem.drop (splitPointOf stem)))

/-- Index of the last dot byte (46), scanning with positions. -/
def lastDotIdxGo : List Nat → Nat → Option Nat
  | [], _ => none
  | b :: r, i =>
    match lastDotIdxGo r (i + 1) with
    | some j => some j
    | none => if b == 46 then some i else none

/-- Index of the last dot byte of a name, if any. -/
def lastDotIdx (l : List Nat) : Option Nat := lastDotIdxGo l 0

/-- pathlib stem/suffix of a bare name: split at the last dot when it is
neither the first character nor immediately before the end. -/
def stemSuffix (name : List Nat) : List Nat × List Nat :=
  match lastDotIdx name with
  | none => (name, [])
  | some i =>
    if 0 < i ∧ i + 1 < name.length then (name.take i, name.drop i) else (name, [])

/-- Path(name).stem. -/
def stemOf (name : List Nat) : List Nat := (stemSuffix name).1

/-- Path(name).suffix. -/
def suffixOf (name : List Nat) : List Nat := (stemSuffix name).2

/-- The post-split clamp both split functions apply to each half:
if count_bytes(part) > 255 then part = safe_truncate(part, 250). -/
def clampTo255 (s : List Nat) : List Nat :=
  if 255 < count_bytes s then safe_truncate s 250 else s

/-- split_filename with the default max_length = 255, as called by the program. -/
def split_filename (filename : List Nat) : List Nat × Option (List Nat) :=
  if count_bytes filename ≤ 255 then (filename, none)
  else if 1 < count_bytes (stemOf filename) then
    (clampTo255 (splitBase (stemOf filename)).1,
     some (clampTo255 ((splitBase (stemOf filename)).2 ++ suffixOf filename)))
  else (safe_truncate filename 250, none)

/-- split_directory_name with the default max_length = 255. -/
def split_directory_name (dirname : List Nat) : List Nat × Option (List Nat) :=
  if count_bytes dirname ≤ 255 then (dirname, none)
  else if 1 < count_bytes dirname then
    (clampTo255 (splitBase dirname).1, some (clampTo255 (splitBase dirname).2))
  else (safe_truncate dirname 250, none)

def c2Name : List Nat := [240, 144, 128, 128, 209, 143] ++ 46 :: List.replicate 250 120

def c5Name : List Nat := List.replicate 510 97 ++ 46 :: [116, 120, 116]

/-! ## Scanner model

A directory tree is a mutual inductive: an entry is a file or a directory
with a list of child entries.  os.walk(directory) visits the root tuple
first and then each subdirectory top-down; the scan checks every name in
dirs, then every name in files, then descends.  The root directory itself
never appears among dirs/files of any tuple.  Paths are joined with a
slash byte (47); the model takes the root path literally (no trailing
slash). -/

mutual
inductive Entry where
  | file (name : List Nat)
  | dir (name : List Nat) (children : EntryList)
inductive EntryList where
  | nil
  | cons (e : Entry) (l : EntryList)
end

inductive PKind where
  | dirName | dirPath | fileName | filePath
deriving DecidableEq

/-- One record of the problems list: (problem type, byte count, full path). -/
structure Problem where
  kind : PKind
  lenBytes : Nat
  path : List Nat
deriving DecidableEq

def pathJoin (root name : List Nat) : List Nat := root ++ 47 :: name

/-- The dirs loop of one os.walk tuple, with the per-directory check cd. -/
def dirChecksGo (cd : List Nat → List Nat → List Problem) (root : List Nat) :
    EntryList → List Problem
  | .nil => []
  | .cons (Entry.dir n _) l => cd root n ++ dirChecksGo cd root l
  | .cons (Entry.file _) l => dirChecksGo cd root l

/-- The files loop of one os.walk tuple, with the per-file check cf. -/
def fileChecksGo (cf : List Nat → List Nat → List Problem) (root : List Nat) :
    EntryList → List Problem
  | .nil => []
  | .cons (Entry.file n) l => cf root n ++ fileChecksGo cf root l
  | .cons (Entry.dir _ _) l => fileChecksGo cf root l

/-- All problems of one os.walk tuple: dirs loop then files loop. -/
def tupleChecks (cd cf : List Nat → List Nat → List Problem)
    (root : List Nat) (cs : EntryList) : List Problem :=
  dirChecksGo cd root cs ++ fileChecksGo cf root cs

mutual
/-- Problems of all os.walk tuples strictly inside entry e. -/
def walkEntry (cd cf : List Nat → List Nat → List Problem) (root : List Nat) :
    Entry → List Problem
  | .file _ => []
  | .dir n cs =>
    tupleChecks cd cf (pathJoin root n) cs ++ walkSubs cd cf (pathJoin root n) cs
/-- Problems of all os.walk tuples of the subdirectories in cs, in order. -/
def walkSubs (cd cf : List Nat → List Nat → List Problem) (root : List Nat) :
    EntryList → List Problem
  | .nil => []
  | .cons e l => walkEntry cd cf root e ++ walkSubs cd cf root l
end

/-- The os.walk scan: the root tuple first, then every subtree top-down. -/
def walkScan (cd cf : List Nat → List Nat → List Problem)
    (root : List Nat) (cs : EntryList) : List Problem :=
  tupleChecks cd cf root cs ++ walkSubs cd cf root cs

/-- Directory check of too-long-for-linux.py: name_bytes >= 255, path_bytes >= 4096. -/
def checkDirMain (root dname : List Nat) : List Problem :=
  (if 255 ≤ count_bytes dname then
    [⟨PKind.dirName, count_bytes dname, pathJoin root dname⟩] else []) ++
  (if 4096 ≤ count_bytes (pathJoin root dname) then
    [⟨PKind.dirPath, count_bytes (pathJoin root dname), pathJoin root dname⟩] else [])

/-- File check of too-long-for-linux.py: name_bytes >= 255, path_bytes >= 4096. -/
def checkFileMain (root fname : List Nat) : List Problem :=
  (if 255 ≤ count_bytes fname then
    [⟨PKind.fileName, count_bytes fname, pathJoin root fname⟩] else []) ++
  (if 4096 ≤ count_bytes (pathJoin root fname) then
    [⟨PKind.filePath, count_bytes (pathJoin root fname), pathJoin root fname⟩] else [])

/-- Directory check of too-long-for-linux-edit.py: strict name_bytes > 255
and path_bytes > 4096. -/
def checkDirEdit (root dname : List Nat) : List Problem :=
  (if 255 < count_bytes dname then
    [⟨PKind.dirName, count_bytes dname, pathJoin root dname⟩] else []) ++
  (if 4096 < count_bytes (pathJoin root dname) then
    [⟨PKind.dirPath, count_bytes (pathJoin root dname), pathJoin root dname⟩] else [])

/-- File check of too-long-for-linux-edit.py: name_bytes >= 255, path_bytes >= 4096. -/
def checkFileEdit (root fname : List Nat) : List Problem :=
  (if 255 ≤ count_bytes fname then
    [⟨PKind.fileName, count_bytes fname, pathJoin root fname⟩] else []) ++
  (if 4096 ≤ count_bytes (pathJoin root fname) then
    [⟨PKind.filePath, count_bytes (pathJoin root fname), pathJoin root fname⟩] else [])

/-- scan_directory of too-long-for-linux.py (problems list only). -/
def scan_directory (root : List Nat) (cs : EntryList) : List Problem :=
  walkScan checkDirMain checkFileMain root cs

/-- scan_directory of too-long-for-linux-edit.py (problems list only). -/
def scanDirectoryEdit (root : List Nat) (cs : EntryList) : List Problem :=
  walkScan checkDirEdit checkFileEdit root cs

/-- A per-entry check reports problems carrying the checked entry path. -/
def checkShape (ck : List Nat → List Nat → List Problem) : Prop :=
  ∀ root n p, p ∈ ck root n → p.path = pathJoin root n

/-! ## Remediator model

The fix functions act inside one parent directory, modeled as an
association list from names to entries.  Children of a real directory
have pairwise distinct names; theorems that need this state it as a
Nodup hypothesis.  Filesystem side effects are recorded in an operation
log (mkdir / move / rmdir with paths relative to the parent directory).
Loops that search for a free name carry fuel; running out of fuel or a
missing source path is reported as an error value, mirroring the OSError
and shutil.Error exceptions the caller catches. -/

inductive FsEntry where
  | file (id : Nat)
  | dir (children : List (List Nat × FsEntry))

inductive Op where
  | mkdir (p : List (List Nat))
  | move (src dst : List (List Nat))
  | rmdir (p : List (List Nat))
deriving DecidableEq

inductive Msg where
  | fileRenamed | fileMoved | dirRenamed | dirMoved | unknown
deriving DecidableEq

inductive FsErr where
  | missingSource | notADirectory | fuelOut
deriving DecidableEq

def isMkdirB : Op → Bool
  | Op.mkdir _ => true
  | Op.move _ _ => false
  | Op.rmdir _ => false

def isMoveB : Op → Bool
  | Op.move _ _ => true
  | Op.mkdir _ => false
  | Op.rmdir _ => false

def isRmdirB : Op → Bool
  | Op.rmdir _ => true
  | Op.mkdir _ => false
  | Op.move _ _ => false

def exceptOk {α : Type} : Except FsErr α → Bool
  | Except.ok _ => true
  | Except.error _ => false

/-- Lookup of a name among the entries of a directory. -/
def lookupA : List (List Nat × FsEntry) → List Nat → Option FsEntry
  | [], _ => none
  | (n, e) :: r, k => if n = k then some e else lookupA r k

/-- full_path.exists() relative to the directory contents. -/
def existsName (a : List (List Nat × FsEntry)) (k : List Nat) : Bool :=
  (lookupA a k).isSome

/-- Removal of the entry with the given name (first occurrence). -/
def removeKey : List (List Nat × FsEntry) → List Nat → List (List Nat × FsEntry)
  | [], _ => []
  | (n, e) :: r, k => if n = k then r else (n, e) :: removeKey r k

/-- Lookup along a path of names, descending through directories. -/
def lookupPath (a : List (List Nat × FsEntry)) : List (List Nat) → Option FsEntry
  | [] => none
  | [n] => lookupA a n
  | n :: m :: rest =>
    match lookupA a n with
    | some (FsEntry.dir cs) => lookupPath cs (m :: rest)
    | _ => none

/-- Decimal digits of a number as ASCII bytes, with fuel (n + 1 digits
always suffice). -/
def natDigitsGo : Nat → Nat → List Nat
  | 0, _ => []
  | f + 1, n => if n < 10 then [48 + n] else natDigitsGo f (n / 10) ++ [48 + n % 10]

/-- str(n): decimal representation of n in ASCII bytes. -/
def natToBytes (n : Nat) : List Nat := natDigitsGo (n + 1) n

/-- Python string slicing s[:k]: the first k characters, walking UTF-8
character lengths. -/
def takeChars : Nat → List Nat → List Nat
  | 0, _ => []
  | _ + 1, [] => []
  | k + 1, b :: rest =>
    (b :: rest).take (charLen b) ++ takeChars k ((b :: rest).drop (charLen b))

/-- The loop candidate of create_safe_directory, _fix_directory_simple and
_fix_directory_split: Path(desired).stem[:200] + underscore + str(counter),
re-truncated to 250 bytes when over 255. -/
def candDir (desired : List Nat) (counter : Nat) : List Nat :=
  clampTo255 (takeChars 200 (stemOf desired) ++ 95 :: natToBytes counter)

/-- The loop candidate of _fix_file_simple and _fix_file_split:
stem[:200] + underscore + str(counter) + suffix, re-truncated when over 255. -/
def candFile (orig : List Nat) (counter : Nat) : List Nat :=
  clampTo255 (takeChars 200 (stemOf orig) ++ 95 :: natToBytes counter ++ suffixOf orig)

/-- The initial candidate of create_safe_directory: the desired name,
truncated to 250 bytes only when over 255. -/
def candInit (desired : List Nat) : List Nat := clampTo255 desired

/-- The while full_path.exists() loop shared by all fix paths: try the
current candidate, else rebuild from the counter and retry. -/
def allocGo (dirC : List (List Nat × FsEntry)) (cand : Nat → List Nat) :
    Nat → List Nat → Nat → Option (List Nat)
  | 0, _, _ => none
  | f + 1, cur, counter =>
    if existsName dirC cur then allocGo dirC cand f (cand counter) (counter + 1)
    else some cur

/-- The name chosen by create_safe_directory(base_path, desired_name)
inside a directory with contents dirC. -/
def create_safe_directory_name (dirC : List (List Nat × FsEntry))
    (desired : List Nat) (fuel : Nat) : Option (List Nat) :=
  allocGo dirC (candDir desired) fuel (candInit desired) 1

/-- _fix_file_simple: truncate-and-rename in place. -/
def fixFileSimple (parent : List (List Nat × FsEntry)) (origName : List Nat)
    (fuel : Nat) : Except FsErr (List (List Nat × FsEntry) × List Op × Msg) :=
  match allocGo parent (candFile origName) fuel (safe_truncate origName 250) 1 with
  | none => Except.error FsErr.fuelOut
  | some nn =>
    match lookupA parent origName with
    | none => Except.error FsErr.missingSource
    | some e =>
      Except.ok (removeKey parent origName ++ [(nn, e)],
        [Op.move [origName] [nn]], Msg.fileRenamed)

/-- _fix_file_split: create a directory for part1, move the file there
under part2 (the fresh directory is empty, so its collision loop checks
against no entries). -/
def fixFileSplit (parent : List (List Nat × FsEntry)) (origName part1 part2 : List Nat)
    (fuel : Nat) : Except FsErr (List (List Nat × FsEntry) × List Op × Msg) :=
  match create_safe_directory_name parent part1 fuel with
  | none => Except.error FsErr.fuelOut
  | some np =>
    match allocGo [] (candFile part2) fuel part2 1 with
    | none => Except.error FsErr.fuelOut
    | some leaf =>
      match lookupA parent origName with
      | none => Except.error FsErr.missingSource
      | some e =>
        Except.ok (removeKey parent origName ++ [(np, FsEntry.dir [(leaf, e)])],
          [Op.mkdir [np], Op.move [origName] [np, leaf]], Msg.fileMoved)

/-- _fix_directory_simple: recreate under the truncated name, move all
children over, remove the emptied shell. -/
def fixDirectorySimple (parent : List (List Nat × FsEntry)) (origName : List Nat)
    (fuel : Nat) : Except FsErr (List (List Nat × FsEntry) × List Op × Msg) :=
  match allocGo parent (candDir origName) fuel (safe_truncate origName 250) 1 with
  | none => Except.error FsErr.fuelOut
  | some nn =>
    match lookupA parent origName with
    | none => Except.error FsErr.missingSource
    | some (FsEntry.file _) => Except.error FsErr.notADirectory
    | some (FsEntry.dir cs) =>
      Except.ok (removeKey parent origName ++ [(nn, FsEntry.dir cs)],
        [Op.mkdir [nn]] ++ cs.map (fun c => Op.move [origName, c.1] [nn, c.1]) ++
          [Op.rmdir [origName]],
        Msg.dirRenamed)

/-- _fix_directory_split: create the part1 directory, create the part2
directory inside it (that second collision loop checks the fresh empty
part1 directory), move the children one level deeper, remove the emptied
original shell. -/
def fixDirectorySplit (parent : List (List Nat × FsEntry))
    (origName part1 part2 : List Nat) (fuel : Nat) :
    Except FsErr (List (List Nat × FsEntry) × List Op × Msg) :=
  match create_safe_directory_name parent part1 fuel with
  | none => Except.error FsErr.fuelOut
  | some np =>
    match allocGo [] (candDir part2) fuel part2 1 with
    | none => Except.error FsErr.fuelOut
    | some leaf =>
      match lookupA parent origName with
      | none => Except.error FsErr.missingSource
      | some (FsEntry.file _) => Except.error FsErr.notADirectory
      | some (FsEntry.dir cs) =>
        Except.ok
          (removeKey parent origName ++
            [(np, FsEntry.dir [(leaf, FsEntry.dir cs)])],
           [Op.mkdir [np], Op.mkdir [np, leaf]] ++
             cs.map (fun c => Op.move [origName, c.1] [np, leaf, c.1]) ++
             [Op.rmdir [origName]],
           Msg.dirMoved)

def FILE_NAME_T : List Nat := [70, 73, 76, 69, 95, 78, 65, 77, 69]

def DIR_NAME_T : List Nat := [68, 73, 82, 95, 78, 65, 77, 69]

def FILE_PATH_T : List Nat := [70, 73, 76, 69, 95, 80, 65, 84, 72]

def DIR_PATH_T : List Nat := [68, 73, 82, 95, 80, 65, 84, 72]

def NAME_T : List Nat := [78, 65, 77, 69]

/-- Python list prefix test for the substring scan. -/
def seqStarts : List Nat → List Nat → Bool
  | [], _ => true
  | _ :: _, [] => false
  | a :: as, b :: bs => a == b && seqStarts as bs

/-- Python substring containment: pat in s. -/
def containsSeq (pat : List Nat) : List Nat → Bool
  | [] => pat.isEmpty
  | b :: rest => seqStarts pat (b :: rest) || containsSeq pat rest

/-- fix_long_name: dispatch on the problem type by substring matching,
split the name, and run the matching fix; anything that is neither a
FILE_NAME nor a DIR_NAME problem returns the unknown-problem message
without touching the filesystem. -/
def fix_long_name (problem_type : List Nat) (parent : List (List Nat × FsEntry))
    (name : List Nat) (fuel : Nat) :
    Except FsErr (List (List Nat × FsEntry) × List Op × Msg) :=
  if containsSeq FILE_NAME_T problem_type then
    match split_filename name with
    | (_, none) => fixFileSimple parent name fuel
    | (p1, some p2) => fixFileSplit parent name p1 p2 fuel
  else if containsSeq DIR_NAME_T problem_type then
    match split_directory_name name with
    | (_, none) => fixDirectorySimple parent name fuel
    | (p1, some p2) => fixDirectorySplit parent name p1 p2 fuel
  else Except.ok (parent, [], Msg.unknown)

/-- The name-problem filter of apply_fixes: keep problems whose type
contains NAME. -/
def nameProblems (ps : List (List Nat × Nat × List Nat)) :
    List (List Nat × Nat × List Nat) :=
  ps.filter (fun p => containsSeq NAME_T p.1)

/-- The fix loop of apply_fixes: run every fix in order, thread the
directory state through successes, keep the state on a caught error, and
record each outcome. -/
def applyFixesGo (fuel : Nat) :
    List (List Nat × FsEntry) → List (List Nat × Nat × List Nat) →
      List (List Nat × FsEntry) × List (Except FsErr Msg)
  | st, [] => (st, [])
  | st, (pt, _len, nm) :: rest =>
    match fix_long_name pt st nm fuel with
    | Except.ok (st2, _ops, msg) =>
      let r := applyFixesGo fuel st2 rest
      (r.1, Except.ok msg :: r.2)
    | Except.error e =>
      let r := applyFixesGo fuel st rest
      (r.1, Except.error e :: r.2)

/-- apply_fixes: filter to name problems, then run the fix loop. -/
def apply_fixes (problems : List (List Nat × Nat × List Nat))
    (st : List (List Nat × FsEntry)) (fuel : Nat) :
    List (List Nat × FsEntry) × List (Except FsErr Msg) :=
  applyFixesGo fuel st (nameProblems problems)

/-- fixed_count: one per successful fix. -/
def fixedCount (outs : List (Except FsErr Msg)) : Nat :=
  (outs.filter exceptOk).length

def fooN : List Nat := [102, 111, 111]

def occFoo : List (List Nat × FsEntry) :=
  [(fooN, FsEntry.dir []), ([102, 111, 111, 95, 49], FsEntry.dir []),
   ([102, 111, 111, 95, 50], FsEntry.dir [])]

/-- 2-byte characters repeated: [196, 129] is the UTF-8 encoding of a
2-byte letter. -/
def repPair : Nat → List Nat
  | 0 => []
  | k + 1 => 196 :: 129 :: repPair k

/-- A 400-byte desired directory name of 200 two-byte characters. -/
def c9Desired : List Nat := repPair 200

/-- Its 250-byte truncation: 125 two-byte characters. -/
def c9Bad : List Nat := repPair 125

def c7Parent : List (List Nat × FsEntry) :=
  [([100], FsEntry.dir [([99], FsEntry.file 1)])]

theorem decIgn_zero (l : List Nat) : decIgn 0 l = [] := rfl

theorem decIgn_nil (f : Nat) : decIgn (f + 1) [] = [] := rfl

theorem decIgn_cons (f b : Nat) (rest : List Nat) :
    decIgn (f + 1) (b :: rest) =
      if b < 128 then b :: decIgn f rest
      else if b < 192 then decIgn f rest
      else if b < 224 then
        match rest with
        | c :: r2 => if isCont c then b :: c :: decIgn f r2 else decIgn f rest
        | [] => []
      else if b < 240 then
        match rest with
        | c :: d :: r2 =>
          if isCont c && isCont d then b :: c :: d :: decIgn f r2
          else decIgn f rest
        | _ => decIgn f rest
      else if b < 248 then
        match rest with
        | c :: d :: e :: r2 =>
          if isCont c && isCont d && isCont e then b :: c :: d :: e :: decIgn f r2
          else decIgn f rest
        | _ => decIgn f rest
      else decIgn f rest := rfl

theorem decIgn_length_le : ∀ f l, (decIgn f l).length ≤ l.length := by
  intro f l
  induction f, l using decIgn.induct with
  | case1 x => simp [decIgn_zero]
  | case2 n => simp [decIgn_nil]
  | case3 f b rest h ih => rw [decIgn_cons]; simp [h]; omega
  | case4 f b rest h1 h2 ih => rw [decIgn_cons]; simp [h1, h2]; omega
  | case5 f b h1 h2 h3 c r2 hc ih => rw [decIgn_cons]; simp [h1, h2, h3, hc]; omega
  | case6 f b h1 h2 h3 c r2 hc ih =>
    rw [decIgn_cons]; simp [h1, h2, h3, hc]
    simp only [List.length_cons] at ih
    omega
  | case7 f b h1 h2 h3 => rw [decIgn_cons]; simp [h1, h2, h3]
  | case8 f b h1 h2 h3 h4 c d r2 hc ih =>
    rw [decIgn_cons]; simp [h1, h2, h3, h4, hc]; omega
  | case9 f b h1 h2 h3 h4 c d r2 hc ih =>
    rw [decIgn_cons]; simp [h1, h2, h3, h4, hc]
    simp only [List.length_cons] at ih
    omega
  | case10 f b rest h1 h2 h3 h4 hne ih =>
    rcases rest with _ | ⟨c, _ | ⟨d, r2⟩⟩
    · rw [decIgn_cons]; simp [h1, h2, h3, h4]
      simp only [List.length_nil] at ih
      omega
    · rw [decIgn_cons]; simp [h1, h2, h3, h4]
      simp only [List.length_cons, List.length_nil] at ih
      omega
    · exact absurd rfl (hne c d r2)
  | case11 f b h1 h2 h3 h4 h5 c d e r2 hc ih =>
    rw [decIgn_cons]; simp [h1, h2, h3, h4, h5, hc]; omega
  | case12 f b h1 h2 h3 h4 h5 c d e r2 hc ih =>
    rw [decIgn_cons]; simp [h1, h2, h3, h4, h5, hc]
    simp only [List.length_cons] at ih
    omega
  | case13 f b rest h1 h2 h3 h4 h5 hne ih =>
    rcases rest with _ | ⟨c, _ | ⟨d, _ | ⟨e, r2⟩⟩⟩
    · rw [decIgn_cons]; simp [h1, h2, h3, h4, h5]
      simp only [List.length_nil] at ih
      omega
    · rw [decIgn_cons]; simp [h1, h2, h3, h4, h5]
      simp only [List.length_cons, List.length_nil] at ih
      omega
    · rw [decIgn_cons]; simp [h1, h2, h3, h4, h5]
      simp only [List.length_cons, List.length_nil] at ih
      omega
    · exact absurd rfl (hne c d e r2)
  | case14 f b rest h1 h2 h3 h4 h5 ih =>
    rw [decIgn_cons]; simp [h1, h2, h3, h4, h5]
    omega

theorem decIgn_succ : ∀ f l, l.length ≤ f → decIgn (f + 1) l = decIgn f l := by
  intro f l
  induction f, l using decIgn.induct with
  | case1 x =>
    intro hlen
    have hx : x = [] := List.length_eq_zero.mp (Nat.le_zero.mp hlen)
    subst hx
    rfl
  | case2 n => intro _; rfl
  | case3 f b rest h ih =>
    intro hlen
    simp only [List.length_cons] at hlen
    conv_lhs => rw [decIgn_cons]
    conv_rhs => rw [decIgn_cons]
    simp [h, ih (by omega)]
  | case4 f b rest h1 h2 ih =>
    intro hlen
    simp only [List.length_cons] at hlen
    conv_lhs => rw [decIgn_cons]
    conv_rhs => rw [decIgn_cons]
    simp [h1, h2, ih (by omega)]
  | case5 f b h1 h2 h3 c r2 hc ih =>
    intro hlen
    simp only [List.length_cons] at hlen
    conv_lhs => rw [decIgn_cons]
    conv_rhs => rw [decIgn_cons]
    simp [h1, h2, h3, hc, ih (by omega)]
  | case6 f b h1 h2 h3 c r2 hc ih =>
    intro hlen
    simp only [List.length_cons] at hlen
    conv_lhs => rw [decIgn_cons]
    conv_rhs => rw [decIgn_cons]
    simp [h1, h2, h3, hc, ih (by simp; omega)]
  | case7 f b h1 h2 h3 =>
    intro _
    conv_lhs => rw [decIgn_cons]
    conv_rhs => rw [decIgn_cons]
    simp [h1, h2, h3]
  | case8 f b h1 h2 h3 h4 c d r2 hc ih =>
    intro hlen
    simp only [List.length_cons] at hlen
    conv_lhs => rw [decIgn_cons]
    conv_rhs => rw [decIgn_cons]
    simp [h1, h2, h3, h4, hc, ih (by omega)]
  | case9 f b h1 h2 h3 h4 c d r2 hc ih =>
    intro hlen
    simp only [List.length_cons] at hlen
    conv_lhs => rw [decIgn_cons]
    conv_rhs => rw [decIgn_cons]
    simp [h1, h2, h3, h4, hc, ih (by simp; omega)]
  | case10 f b rest h1 h2 h3 h4 hne ih =>
    intro hlen
    simp only [List.length_cons] at hlen
    rcases rest with _ | ⟨c, _ | ⟨d, r2⟩⟩
    · conv_lhs => rw [decIgn_cons]
      conv_rhs => rw [decIgn_cons]
      simp [h1, h2, h3, h4, ih (by simp)]
    · conv_lhs => rw [decIgn_cons]
      conv_rhs => rw [decIgn_cons]
      simp [h1, h2, h3, h4, ih (by simp at hlen ⊢; omega)]
    · exact absurd rfl (hne c d r2)
  | case11 f b h1 h2 h3 h4 h5 c d e r2 hc ih =>
    intro hlen
    simp only [List.length_cons] at hlen
    conv_lhs => rw [decIgn_cons]
    conv_rhs => rw [decIgn_cons]
    simp [h1, h2, h3, h4, h5, hc, ih (by omega)]
  | case12 f b h1 h2 h3 h4 h5 c d e r2 hc ih =>
    intro hlen
    simp only [List.length_cons] at hlen
    conv_lhs => rw [decIgn_cons]
    conv_rhs => rw [decIgn_cons]
    simp [h1, h2, h3, h4, h5, hc, ih (by simp; omega)]
  | case13 f b rest h1 h2 h3 h4 h5 hne ih =>
    intro hlen
    simp only [List.length_cons] at hlen
    rcases rest with _ | ⟨c, _ | ⟨d, _ | ⟨e, r2⟩⟩⟩
    · conv_lhs => rw [decIgn_cons]
      conv_rhs => rw [decIgn_cons]
      simp [h1, h2, h3, h4, h5, ih (by simp)]
    · conv_lhs => rw [decIgn_cons]
      conv_rhs => rw [decIgn_cons]
      simp [h1, h2, h3, h4, h5, ih (by simp at hlen ⊢; omega)]
    · conv_lhs => rw [decIgn_cons]
      conv_rhs => rw [decIgn_cons]
      simp [h1, h2, h3, h4, h5, ih (by simp at hlen ⊢; omega)]
    · exact absurd rfl (hne c d e r2)
  | case14 f b rest h1 h2 h3 h4 h5 ih =>
    intro hlen
    simp only [List.length_cons] at hlen
    conv_lhs => rw [decIgn_cons]
    conv_rhs => rw [decIgn_cons]
    simp [h1, h2, h3, h4, h5, ih (by omega)]

theorem decIgn_eq_decodeIgnore : ∀ f l, l.length ≤ f → decIgn f l = decodeIgnore l := by
  have key : ∀ d f (l : List Nat), f = l.length + d → decIgn f l = decIgn l.length l := by
    intro d
    induction d with
    | zero =>
      intro f l hf
      simp only [Nat.add_zero] at hf
      rw [hf]
    | succ d ih =>
      intro f l hf
      have hf2 : f = (l.length + d) + 1 := by omega
      rw [hf2, decIgn_succ (l.length + d) l (by omega)]
      exact ih _ _ rfl
  intro f l h
  exact key (f - l.length) f l (by omega)

theorem decodeIgnore_cons (b : Nat) (l : List Nat) :
    decodeIgnore (b :: l) = decIgn (l.length + 1) (b :: l) := rfl

theorem decodeIgnore_decIgn : ∀ f l, decodeIgnore (decIgn f l) = decIgn f l := by
  intro f l
  induction f, l using decIgn.induct with
  | case1 x => rfl
  | case2 n => rfl
  | case3 f b rest h ih =>
    rw [decIgn_cons]
    simp only [if_pos h]
    rw [decodeIgnore_cons, decIgn_cons]
    simp only [if_pos h]
    rw [show decIgn (decIgn f rest).length (decIgn f rest) = decodeIgnore (decIgn f rest) from rfl, ih]
  | case4 f b rest h1 h2 ih =>
    rw [decIgn_cons]
    simp only [if_neg h1, if_pos h2]
    exact ih
  | case5 f b h1 h2 h3 c r2 hc ih =>
    rw [decIgn_cons]
    simp only [if_neg h1, if_neg h2, if_pos h3, hc, if_pos]
    rw [decodeIgnore_cons, decIgn_cons]
    simp only [List.length_cons, if_neg h1, if_neg h2, if_pos h3, hc, if_pos]
    rw [decIgn_eq_decodeIgnore ((decIgn f r2).length + 1) (decIgn f r2) (by omega), ih]
  | case6 f b h1 h2 h3 c r2 hc ih =>
    rw [decIgn_cons]
    simp only [if_neg h1, if_neg h2, if_pos h3, hc, if_neg, Bool.false_eq_true, if_false]
    exact ih
  | case7 f b h1 h2 h3 =>
    rw [decIgn_cons]
    simp only [if_neg h1, if_neg h2, if_pos h3]
    rfl
  | case8 f b h1 h2 h3 h4 c d r2 hc ih =>
    rw [decIgn_cons]
    simp only [if_neg h1, if_neg h2, if_neg h3, if_pos h4, hc, if_pos]
    rw [decodeIgnore_cons, decIgn_cons]
    simp only [List.length_cons, if_neg h1, if_neg h2, if_neg h3, if_pos h4, hc, if_pos]
    rw [decIgn_eq_decodeIgnore ((decIgn f r2).length + 1 + 1) (decIgn f r2) (by omega), ih]
  | case9 f b h1 h2 h3 h4 c d r2 hc ih =>
    rw [decIgn_cons]
    simp only [if_neg h1, if_neg h2, if_neg h3, if_pos h4, hc, Bool.false_eq_true, if_false]
    exact ih
  | case10 f b rest h1 h2 h3 h4 hne ih =>
    rcases rest with _ | ⟨c, _ | ⟨d, r2⟩⟩
    · rw [decIgn_cons]
      simp only [if_neg h1, if_neg h2, if_neg h3, if_pos h4]
      exact ih
    · rw [decIgn_cons]
      simp only [if_neg h1, if_neg h2, if_neg h3, if_pos h4]
      exact ih
    · exact absurd rfl (hne c d r2)
  | case11 f b h1 h2 h3 h4 h5 c d e r2 hc ih =>
    rw [decIgn_cons]
    simp only [if_neg h1, if_neg h2, if_neg h3, if_neg h4, if_pos h5, hc, if_pos]
    rw [decodeIgnore_cons, decIgn_cons]
    simp only [List.length_cons, if_neg h1, if_neg h2, if_neg h3, if_neg h4, if_pos h5,
      hc, if_pos]
    rw [decIgn_eq_decodeIgnore ((decIgn f r2).length + 1 + 1 + 1) (decIgn f r2) (by omega), ih]
  | case12 f b h1 h2 h3 h4 h5 c d e r2 hc ih =>
    rw [decIgn_cons]
    simp only [if_neg h1, if_neg h2, if_neg h3, if_neg h4, if_pos h5, hc,
      Bool.false_eq_true, if_false]
    exact ih
  | case13 f b rest h1 h2 h3 h4 h5 hne ih =>
    rcases rest with _ | ⟨c, _ | ⟨d, _ | ⟨e, r2⟩⟩⟩
    · rw [decIgn_cons]
      simp only [if_neg h1, if_neg h2, if_neg h3, if_neg h4, if_pos h5]
      exact ih
    · rw [decIgn_cons]
      simp only [if_neg h1, if_neg h2, if_neg h3, if_neg h4, if_pos h5]
      exact ih
    · rw [decIgn_cons]
      simp only [if_neg h1, if_neg h2, if_neg h3, if_neg h4, if_pos h5]
      exact ih
    · exact absurd rfl (hne c d e r2)
  | case14 f b rest h1 h2 h3 h4 h5 ih =>
    rw [decIgn_cons]
    simp only [if_neg h1, if_neg h2, if_neg h3, if_neg h4, if_neg h5]
    exact ih

theorem utf8OK_decodeIgnore (l : List Nat) : Utf8OK (decodeIgnore l) :=
  decodeIgnore_decIgn l.length l

theorem decodeIgnore_def (l : List Nat) : decIgn l.length l = decodeIgnore l := rfl

theorem decodeIgnore_length_le (l : List Nat) : (decodeIgnore l).length ≤ l.length :=
  decIgn_length_le l.length l

theorem utf8OK_nil : Utf8OK [] := rfl

theorem utf8OK_cons1_iff (b : Nat) (l : List Nat) (hb : b < 128) :
    Utf8OK (b :: l) ↔ Utf8OK l := by
  show decodeIgnore (b :: l) = b :: l ↔ decodeIgnore l = l
  rw [decodeIgnore_cons, decIgn_cons]
  simp [hb, decodeIgnore_def]

theorem utf8OK_cons2_iff (b c : Nat) (l : List Nat)
    (h1 : ¬ b < 128) (h2 : ¬ b < 192) (h3 : b < 224) (hc : isCont c = true) :
    Utf8OK (b :: c :: l) ↔ Utf8OK l := by
  show decodeIgnore (b :: c :: l) = b :: c :: l ↔ decodeIgnore l = l
  rw [decodeIgnore_cons]
  simp only [List.length_cons]
  rw [decIgn_cons]
  simp [h1, h2, h3, hc, decIgn_succ l.length l le_rfl, decodeIgnore_def]

theorem utf8OK_cons3_iff (b c d : Nat) (l : List Nat)
    (h1 : ¬ b < 128) (h2 : ¬ b < 192) (h3 : ¬ b < 224) (h4 : b < 240)
    (hc : isCont c = true) (hd : isCont d = true) :
    Utf8OK (b :: c :: d :: l) ↔ Utf8OK l := by
  show decodeIgnore (b :: c :: d :: l) = b :: c :: d :: l ↔ decodeIgnore l = l
  rw [decodeIgnore_cons]
  simp only [List.length_cons]
  rw [decIgn_cons]
  have e1 : decIgn (l.length + 1 + 1) l = decodeIgnore l :=
    decIgn_eq_decodeIgnore _ _ (by omega)
  simp [h1, h2, h3, h4, hc, hd, e1]

theorem utf8OK_cons4_iff (b c d e : Nat) (l : List Nat)
    (h1 : ¬ b < 128) (h2 : ¬ b < 192) (h3 : ¬ b < 224) (h4 : ¬ b < 240) (h5 : b < 248)
    (hc : isCont c = true) (hd : isCont d = true) (he : isCont e = true) :
    Utf8OK (b :: c :: d :: e :: l) ↔ Utf8OK l := by
  show decodeIgnore (b :: c :: d :: e :: l) = b :: c :: d :: e :: l ↔ decodeIgnore l = l
  rw [decodeIgnore_cons]
  simp only [List.length_cons]
  rw [decIgn_cons]
  have e1 : decIgn (l.length + 1 + 1 + 1) l = decodeIgnore l :=
    decIgn_eq_decodeIgnore _ _ (by omega)
  simp [h1, h2, h3, h4, h5, hc, hd, he, e1]

theorem adjustBack_zero (s : List Nat) : adjustBack s 0 = 0 := rfl

theorem adjustBack_succ (s : List Nat) (p : Nat) :
    adjustBack s (p + 1) =
      if isCont (s.getD (p + 1) 0) then adjustBack s p else p + 1 := rfl

theorem adjustBack_le (s : List Nat) : ∀ p, adjustBack s p ≤ p := by
  intro p
  induction p with
  | zero => simp [adjustBack_zero]
  | succ q ih =>
    rw [adjustBack_succ]
    split
    · exact Nat.le_succ_of_le ih
    · exact le_rfl

theorem adjustBack_spec (s : List Nat) :
    ∀ p, adjustBack s p = 0 ∨ isCont (s.getD (adjustBack s p) 0) = false := by
  intro p
  induction p with
  | zero => left; rfl
  | succ q ih =>
    by_cases hc : isCont (s.getD (q + 1) 0) = true
    · rw [adjustBack_succ, if_pos hc]
      exact ih
    · rw [adjustBack_succ, if_neg hc]
      right
      cases h2 : isCont (s.getD (q + 1) 0)
      · rfl
      · exact absurd h2 hc

/-- Cutting a valid UTF-8 string at the end or at a non-continuation byte
yields two valid pieces. -/
theorem utf8OK_split :
    ∀ f l, l.length ≤ f → Utf8OK l → ∀ p, p ≤ l.length →
      (p = l.length ∨ isCont (l.getD p 0) = false) →
      Utf8OK (l.take p) ∧ Utf8OK (l.drop p) := by
  intro f l
  induction f, l using decIgn.induct with
  | case1 x =>
    intro hf _ p hp _
    have hx : x = [] := List.length_eq_zero.mp (Nat.le_zero.mp hf)
    subst hx
    have hp0 : p = 0 := by simpa using hp
    subst hp0
    exact ⟨utf8OK_nil, utf8OK_nil⟩
  | case2 n =>
    intro _ _ p hp _
    have hp0 : p = 0 := by simpa using hp
    subst hp0
    exact ⟨utf8OK_nil, utf8OK_nil⟩
  | case3 f b rest h ih =>
    intro hf hv p hp hcut
    have hrest : Utf8OK rest := (utf8OK_cons1_iff b rest h).mp hv
    rcases p with _ | q
    · exact ⟨utf8OK_nil, hv⟩
    · have hq : q ≤ rest.length := by simpa using hp
      have hcut2 : q = rest.length ∨ isCont (rest.getD q 0) = false := by
        rcases hcut with hh | hh
        · left; simpa using hh
        · right; simpa using hh
      have := ih (by simpa using Nat.le_of_succ_le_succ (by simpa using hf)) hrest q hq hcut2
      refine ⟨?_, ?_⟩
      · rw [List.take_succ_cons]
        exact (utf8OK_cons1_iff b _ h).mpr this.1
      · rw [List.drop_succ_cons]
        exact this.2
  | case4 f b rest h1 h2 ih =>
    intro _ hv _ _ _
    exfalso
    have hv2 : decIgn (rest.length + 1) (b :: rest) = b :: rest := hv
    rw [decIgn_cons] at hv2
    simp only [if_neg h1, if_pos h2] at hv2
    have hl := decIgn_length_le rest.length rest
    rw [hv2] at hl
    simp at hl
  | case5 f b h1 h2 h3 c r2 hc ih =>
    intro hf hv p hp hcut
    have hr2 : Utf8OK r2 := (utf8OK_cons2_iff b c r2 h1 h2 h3 hc).mp hv
    rcases p with _ | (_ | q)
    · exact ⟨utf8OK_nil, hv⟩
    · exfalso
      rcases hcut with hh | hh
      · simp at hh
      · simp [hc] at hh
    · have hq : q ≤ r2.length := by simpa using hp
      have hcut2 : q = r2.length ∨ isCont (r2.getD q 0) = false := by
        rcases hcut with hh | hh
        · left; simpa using hh
        · right; simpa using hh
      have hf2 : r2.length ≤ f := by simp at hf; omega
      have := ih hf2 hr2 q hq hcut2
      refine ⟨?_, ?_⟩
      · rw [List.take_succ_cons, List.take_succ_cons]
        exact (utf8OK_cons2_iff b c _ h1 h2 h3 hc).mpr this.1
      · rw [List.drop_succ_cons, List.drop_succ_cons]
        exact this.2
  | case6 f b h1 h2 h3 c r2 hc ih =>
    intro _ hv _ _ _
    exfalso
    have hcf : isCont c = false := by
      cases h : isCont c
      · rfl
      · exact absurd h hc
    have hv2 : decIgn (r2.length + 1 + 1) (b :: c :: r2) = b :: c :: r2 := hv
    rw [decIgn_cons] at hv2
    simp only [if_neg h1, if_neg h2, if_pos h3, hcf, Bool.false_eq_true, if_false] at hv2
    have hl := decIgn_length_le (r2.length + 1) (c :: r2)
    rw [hv2] at hl
    simp at hl
  | case7 f b h1 h2 h3 =>
    intro _ hv _ _ _
    exfalso
    have hv2 : decIgn 1 [b] = [b] := hv
    rw [decIgn_cons] at hv2
    simp [h1, h2, h3] at hv2
  | case8 f b h1 h2 h3 h4 c d r2 hc ih =>
    intro hf hv p hp hcut
    simp only [Bool.and_eq_true] at hc
    have hr2 : Utf8OK r2 := (utf8OK_cons3_iff b c d r2 h1 h2 h3 h4 hc.1 hc.2).mp hv
    rcases p with _ | (_ | (_ | q))
    · exact ⟨utf8OK_nil, hv⟩
    · exfalso
      rcases hcut with hh | hh
      · simp at hh
      · simp [hc.1] at hh
    · exfalso
      rcases hcut with hh | hh
      · simp at hh
      · simp [hc.2] at hh
    · have hq : q ≤ r2.length := by simpa using hp
      have hcut2 : q = r2.length ∨ isCont (r2.getD q 0) = false := by
        rcases hcut with hh | hh
        · left; simpa using hh
        · right; simpa using hh
      have hf2 : r2.length ≤ f := by simp at hf; omega
      have := ih hf2 hr2 q hq hcut2
      refine ⟨?_, ?_⟩
      · rw [List.take_succ_cons, List.take_succ_cons, List.take_succ_cons]
        exact (utf8OK_cons3_iff b c d _ h1 h2 h3 h4 hc.1 hc.2).mpr this.1
      · rw [List.drop_succ_cons, List.drop_succ_cons, List.drop_succ_cons]
        exact this.2
  | case9 f b h1 h2 h3 h4 c d r2 hc ih =>
    intro _ hv _ _ _
    exfalso
    have hcf : (isCont c && isCont d) = false := by
      cases h : (isCont c && isCont d)
      · rfl
      · exact absurd h hc
    have hv2 : decIgn (r2.length + 1 + 1 + 1) (b :: c :: d :: r2) = b :: c :: d :: r2 := hv
    rw [decIgn_cons] at hv2
    simp only [if_neg h1, if_neg h2, if_neg h3, if_pos h4, hcf, Bool.false_eq_true,
      if_false] at hv2
    have hl := decIgn_length_le (r2.length + 1 + 1) (c :: d :: r2)
    rw [hv2] at hl
    simp at hl
  | case10 f b rest h1 h2 h3 h4 hne ih =>
    intro _ hv _ _ _
    exfalso
    rcases rest with _ | ⟨c, _ | ⟨d, r2⟩⟩
    · have hv2 : decIgn 1 [b] = [b] := hv
      rw [decIgn_cons] at hv2
      simp only [if_neg h1, if_neg h2, if_neg h3, if_pos h4] at hv2
      simp [decIgn_zero] at hv2
    · have hv2 : decIgn 2 [b, c] = [b, c] := hv
      rw [decIgn_cons] at hv2
      simp only [if_neg h1, if_neg h2, if_neg h3, if_pos h4] at hv2
      have hl := decIgn_length_le 1 [c]
      rw [hv2] at hl
      simp at hl
    · exact absurd rfl (hne c d r2)
  | case11 f b h1 h2 h3 h4 h5 c d e r2 hc ih =>
    intro hf hv p hp hcut
    simp only [Bool.and_eq_true] at hc
    have hr2 : Utf8OK r2 :=
      (utf8OK_cons4_iff b c d e r2 h1 h2 h3 h4 h5 hc.1.1 hc.1.2 hc.2).mp hv
    rcases p with _ | (_ | (_ | (_ | q)))
    · exact ⟨utf8OK_nil, hv⟩
    · exfalso
      rcases hcut with hh | hh
      · simp at hh
      · simp [hc.1.1] at hh
    · exfalso
      rcases hcut with hh | hh
      · simp at hh
      · simp [hc.1.2] at hh
    · exfalso
      rcases hcut with hh | hh
      · simp at hh
      · simp [hc.2] at hh
    · have hq : q ≤ r2.length := by simpa using hp
      have hcut2 : q = r2.length ∨ isCont (r2.getD q 0) = false := by
        rcases hcut with hh | hh
        · left; simpa using hh
        · right; simpa using hh
      have hf2 : r2.length ≤ f := by simp at hf; omega
      have := ih hf2 hr2 q hq hcut2
      refine ⟨?_, ?_⟩
      · rw [List.take_succ_cons, List.take_succ_cons, List.take_succ_cons,
          List.take_succ_cons]
        exact (utf8OK_cons4_iff b c d e _ h1 h2 h3 h4 h5 hc.1.1 hc.1.2 hc.2).mpr this.1
      · rw [List.drop_succ_cons, List.drop_succ_cons, List.drop_succ_cons,
          List.drop_succ_cons]
        exact this.2
  | case12 f b h1 h2 h3 h4 h5 c d e r2 hc ih =>
    intro _ hv _ _ _
    exfalso
    have hcf : (isCont c && isCont d && isCont e) = false := by
      cases h : (isCont c && isCont d && isCont e)
      · rfl
      · exact absurd h hc
    have hv2 :
        decIgn (r2.length + 1 + 1 + 1 + 1) (b :: c :: d :: e :: r2) =
          b :: c :: d :: e :: r2 := hv
    rw [decIgn_cons] at hv2
    simp only [if_neg h1, if_neg h2, if_neg h3, if_neg h4, if_pos h5, hcf,
      Bool.false_eq_true, if_false] at hv2
    have hl := decIgn_length_le (r2.length + 1 + 1 + 1) (c :: d :: e :: r2)
    rw [hv2] at hl
    simp at hl
  | case13 f b rest h1 h2 h3 h4 h5 hne ih =>
    intro _ hv _ _ _
    exfalso
    rcases rest with _ | ⟨c, _ | ⟨d, _ | ⟨e, r2⟩⟩⟩
    · have hv2 : decIgn 1 [b] = [b] := hv
      rw [decIgn_cons] at hv2
      simp only [if_neg h1, if_neg h2, if_neg h3, if_neg h4, if_pos h5] at hv2
      have hl := decIgn_length_le 0 ([] : List Nat)
      rw [hv2] at hl
      simp at hl
    · have hv2 : decIgn 2 [b, c] = [b, c] := hv
      rw [decIgn_cons] at hv2
      simp only [if_neg h1, if_neg h2, if_neg h3, if_neg h4, if_pos h5] at hv2
      have hl := decIgn_length_le 1 [c]
      rw [hv2] at hl
      simp at hl
    · have hv2 : decIgn 3 [b, c, d] = [b, c, d] := hv
      rw [decIgn_cons] at hv2
      simp only [if_neg h1, if_neg h2, if_neg h3, if_neg h4, if_pos h5] at hv2
      have hl := decIgn_length_le 2 [c, d]
      rw [hv2] at hl
      simp at hl
    · exact absurd rfl (hne c d e r2)
  | case14 f b rest h1 h2 h3 h4 h5 ih =>
    intro _ hv _ _ _
    exfalso
    have hv2 : decIgn (rest.length + 1) (b :: rest) = b :: rest := hv
    rw [decIgn_cons] at hv2
    simp only [if_neg h1, if_neg h2, if_neg h3, if_neg h4, if_neg h5] at hv2
    have hl := decIgn_length_le rest.length rest
    rw [hv2] at hl
    simp at hl

theorem safe_truncate_le_of_gt (s : List Nat) (m : Nat) (h : m < s.length) :
    (safe_truncate s m).length ≤ m := by
  unfold safe_truncate count_bytes
  rw [if_neg (by omega)]
  refine le_trans (decodeIgnore_length_le _) ?_
  simp [List.length_take]

theorem safe_truncate_length_le (s : List Nat) (m : Nat) :
    (safe_truncate s m).length ≤ max s.length m := by
  by_cases h : s.length ≤ m
  · unfold safe_truncate count_bytes
    rw [if_pos h]
    exact le_max_left _ _
  · exact le_trans (safe_truncate_le_of_gt s m (by omega)) (le_max_right _ _)

/-- C2 (amended): the splitting core of split_filename and
split_directory_name cuts at a UTF-8 character boundary and the two
halves reassemble the whole base (hence a prefix of it) whenever the
backward boundary adjustment lands at a positive offset; in that case
both halves are valid UTF-8.  (In the fallback case, when the adjustment
reaches offset 0, the raw midpoint is used and can land inside a
multi-byte sequence, and the decoded halves need not reassemble a prefix
of the base — see the counterexample.) -/
theorem C2_amended_split_safety :
    ∀ stem : List Nat, Utf8OK stem →
      adjustBack stem (stem.length / 2) ≠ 0 →
      (splitBase stem).1 ++ (splitBase stem).2 = stem ∧
      Utf8OK (splitBase stem).1 ∧ Utf8OK (splitBase stem).2 ∧
      isCont (stem.getD (splitPointOf stem) 0) = false := by
  intro stem hv hnz
  have hspeq : splitPointOf stem = adjustBack stem (stem.length / 2) := by
    unfold splitPointOf
    rw [if_neg hnz]
  have hle : splitPointOf stem ≤ stem.length := by
    rw [hspeq]
    exact le_trans (adjustBack_le stem _) (Nat.div_le_self _ _)
  have hcut : isCont (stem.getD (splitPointOf stem) 0) = false := by
    rw [hspeq]
    rcases adjustBack_spec stem (stem.length / 2) with h | h
    · exact absurd h hnz
    · exact h
  have hsplit :=
    utf8OK_split stem.length stem le_rfl hv (splitPointOf stem) hle (Or.inr hcut)
  have h1 : (splitBase stem).1 = stem.take (splitPointOf stem) := hsplit.1
  have h2 : (splitBase stem).2 = stem.drop (splitPointOf stem) := hsplit.2
  refine ⟨?_, ?_, ?_, hcut⟩
  · rw [h1, h2, List.take_append_drop]
  · rw [h1]
    exact hsplit.1
  · rw [h2]
    exact hsplit.2

/-- C2 witness: a concrete two-byte ASCII stem where the adjustment lands
at offset 1 and the guarantees hold. -/
theorem C2_amended_split_safety_witness :
    Utf8OK [97, 98] ∧ adjustBack [97, 98] ([97, 98].length / 2) ≠ 0 ∧
      ((splitBase [97, 98]).1 ++ (splitBase [97, 98]).2 = [97, 98] ∧
        Utf8OK (splitBase [97, 98]).1 ∧ Utf8OK (splitBase [97, 98]).2 ∧
        isCont ([97, 98].getD (splitPointOf [97, 98]) 0) = false) :=
  ⟨by decide, by decide,
    C2_amended_split_safety [97, 98] (by decide) (by decide)⟩

/-- C2 counterexample: the name 𐀀я.xxx…x (a 4-byte character, a 2-byte
character, then a 251-byte extension) is valid UTF-8 with a 6-byte base
longer than 1 byte, yet the fallback split point 3 lands inside the
4-byte character, and the two halves (second half taken before the
extension is re-attached) concatenate to [209, 143], which is not a
prefix of the base [240, 144, 128, 128, 209, 143]. -/
theorem C2_cex_fallback_cut_mid_char :
    Utf8OK c2Name ∧
    stemOf c2Name = [240, 144, 128, 128, 209, 143] ∧
    1 < count_bytes (stemOf c2Name) ∧
    split_filename c2Name = ([], some (209 :: 143 :: 46 :: List.replicate 250 120)) ∧
    splitBase (stemOf c2Name) = ([], [209, 143]) ∧
    isCont ((stemOf c2Name).getD (splitPointOf (stemOf c2Name)) 0) = true ∧
    ¬ ∃ t, (splitBase (stemOf c2Name)).1 ++ (splitBase (stemOf c2Name)).2 ++ t =
      stemOf c2Name := by
  refine ⟨by decide, by decide, by decide, by decide, by decide, by decide, ?_⟩
  rintro ⟨t, ht⟩
  rw [show splitBase (stemOf c2Name) = ([], [209, 143]) from by decide,
    show stemOf c2Name = [240, 144, 128, 128, 209, 143] from by decide] at ht
  simp at ht

theorem clampTo255_le (s : List Nat) : (clampTo255 s).length ≤ 255 := by
  unfold clampTo255 count_bytes
  split_ifs with h
  · exact le_trans (safe_truncate_le_of_gt _ _ (by omega)) (by omega)
  · omega

/-- C5 (amended): after the split step each half that exceeds 255 bytes is
truncated to the fixed 250-byte margin, so every returned half has UTF-8
byte length at most 255; a half of exactly 251 to 255 bytes is returned
untouched, so a returned half can still reach the 255-byte limit (see the
counterexample), contrary to the claim that both halves end up strictly
below it. -/
theorem C5_amended_halves_le_255 :
    ∀ name : List Nat,
      count_bytes (split_filename name).1 ≤ 255 ∧
      (∀ p2, (split_filename name).2 = some p2 → count_bytes p2 ≤ 255) ∧
      count_bytes (split_directory_name name).1 ≤ 255 ∧
      (∀ p2, (split_directory_name name).2 = some p2 → count_bytes p2 ≤ 255) := by
  intro name
  have hfile : count_bytes (split_filename name).1 ≤ 255 ∧
      (∀ p2, (split_filename name).2 = some p2 → count_bytes p2 ≤ 255) := by
    unfold split_filename
    split_ifs with h0 h1
    · exact ⟨h0, by simp⟩
    · refine ⟨clampTo255_le _, ?_⟩
      intro p2 heq
      have h2 := Option.some.inj heq
      rw [← h2]
      exact clampTo255_le _
    · refine ⟨?_, by simp⟩
      unfold count_bytes at h0 ⊢
      exact le_trans (safe_truncate_le_of_gt _ _ (by omega)) (by omega)
  have hdir : count_bytes (split_directory_name name).1 ≤ 255 ∧
      (∀ p2, (split_directory_name name).2 = some p2 → count_bytes p2 ≤ 255) := by
    unfold split_directory_name
    split_ifs with h0 h1
    · exact ⟨h0, by simp⟩
    · refine ⟨clampTo255_le _, ?_⟩
      intro p2 heq
      have h2 := Option.some.inj heq
      rw [← h2]
      exact clampTo255_le _
    · refine ⟨?_, by simp⟩
      unfold count_bytes at h0 ⊢
      exact le_trans (safe_truncate_le_of_gt _ _ (by omega)) (by omega)
  exact ⟨hfile.1, hfile.2, hdir.1, hdir.2⟩

/-- C5 witness: the concrete 514-byte file name of the counterexample has
both halves within 255 bytes and the second half defined. -/
theorem C5_amended_halves_le_255_witness :
    count_bytes (split_filename c5Name).1 ≤ 255 ∧
      ((split_filename c5Name).2 = some (List.replicate 250 97) →
        count_bytes (List.replicate 250 97) ≤ 255) :=
  ⟨(C5_amended_halves_le_255 c5Name).1,
   (C5_amended_halves_le_255 c5Name).2.1 (List.replicate 250 97)⟩

/-- C5 counterexample: the file name of 510 letters a followed by .txt is
overlong (514 bytes); the split returns a first half of exactly 255
bytes, which is not strictly below the 255-byte limit (and is itself a
name the scanner would flag). -/
theorem C5_cex_half_exactly_255 :
    split_filename c5Name = (List.replicate 255 97, some (List.replicate 250 97)) ∧
    ¬ (count_bytes (split_filename c5Name).1 < 255) := by
  constructor
  · decide
  · decide

theorem dirChecksGo_nil (cd : List Nat → List Nat → List Problem) (root : List Nat) :
    dirChecksGo cd root EntryList.nil = [] := rfl

theorem dirChecksGo_cons_dir (cd : List Nat → List Nat → List Problem)
    (root n : List Nat) (cl : EntryList) (l : EntryList) :
    dirChecksGo cd root (EntryList.cons (Entry.dir n cl) l) =
      cd root n ++ dirChecksGo cd root l := rfl

theorem dirChecksGo_cons_file (cd : List Nat → List Nat → List Problem)
    (root m : List Nat) (l : EntryList) :
    dirChecksGo cd root (EntryList.cons (Entry.file m) l) = dirChecksGo cd root l := rfl

theorem fileChecksGo_nil (cf : List Nat → List Nat → List Problem) (root : List Nat) :
    fileChecksGo cf root EntryList.nil = [] := rfl

theorem fileChecksGo_cons_file (cf : List Nat → List Nat → List Problem)
    (root m : List Nat) (l : EntryList) :
    fileChecksGo cf root (EntryList.cons (Entry.file m) l) =
      cf root m ++ fileChecksGo cf root l := rfl

theorem fileChecksGo_cons_dir (cf : List Nat → List Nat → List Problem)
    (root n : List Nat) (cl : EntryList) (l : EntryList) :
    fileChecksGo cf root (EntryList.cons (Entry.dir n cl) l) =
      fileChecksGo cf root l := rfl

theorem walkEntry_file (cd cf : List Nat → List Nat → List Problem)
    (root m : List Nat) : walkEntry cd cf root (Entry.file m) = [] := rfl

theorem walkEntry_dir (cd cf : List Nat → List Nat → List Problem)
    (root n : List Nat) (cs : EntryList) :
    walkEntry cd cf root (Entry.dir n cs) =
      tupleChecks cd cf (pathJoin root n) cs ++ walkSubs cd cf (pathJoin root n) cs := rfl

theorem walkSubs_nil (cd cf : List Nat → List Nat → List Problem) (root : List Nat) :
    walkSubs cd cf root EntryList.nil = [] := rfl

theorem walkSubs_cons (cd cf : List Nat → List Nat → List Problem)
    (root : List Nat) (e : Entry) (l : EntryList) :
    walkSubs cd cf root (EntryList.cons e l) =
      walkEntry cd cf root e ++ walkSubs cd cf root l := rfl

theorem pathJoin_length (root name : List Nat) :
    (pathJoin root name).length = root.length + 1 + name.length := by
  simp [pathJoin]
  omega

theorem mem_dirChecksGo (cd : List Nat → List Nat → List Problem) (root : List Nat) :
    ∀ (cs : EntryList) (p : Problem),
      p ∈ dirChecksGo cd root cs → ∃ n, p ∈ cd root n
  | EntryList.nil, p, h => by rw [dirChecksGo_nil] at h; exact absurd h (by simp)
  | EntryList.cons (Entry.file m) l, p, h =>
    mem_dirChecksGo cd root l p (by rwa [dirChecksGo_cons_file] at h)
  | EntryList.cons (Entry.dir n cl) l, p, h => by
    rw [dirChecksGo_cons_dir] at h
    rcases List.mem_append.mp h with h1 | h2
    · exact ⟨n, h1⟩
    · exact mem_dirChecksGo cd root l p h2

theorem mem_fileChecksGo (cf : List Nat → List Nat → List Problem) (root : List Nat) :
    ∀ (cs : EntryList) (p : Problem),
      p ∈ fileChecksGo cf root cs → ∃ n, p ∈ cf root n
  | EntryList.nil, p, h => by rw [fileChecksGo_nil] at h; exact absurd h (by simp)
  | EntryList.cons (Entry.dir n cl) l, p, h =>
    mem_fileChecksGo cf root l p (by rwa [fileChecksGo_cons_dir] at h)
  | EntryList.cons (Entry.file m) l, p, h => by
    rw [fileChecksGo_cons_file] at h
    rcases List.mem_append.mp h with h1 | h2
    · exact ⟨m, h1⟩
    · exact mem_fileChecksGo cf root l p h2

theorem mem_tupleChecks (cd cf : List Nat → List Nat → List Problem)
    (hcd : checkShape cd) (hcf : checkShape cf) (root : List Nat) (cs : EntryList)
    (p : Problem) (h : p ∈ tupleChecks cd cf root cs) :
    ∃ n, p.path = pathJoin root n := by
  rcases List.mem_append.mp h with h1 | h2
  · obtain ⟨n, hn⟩ := mem_dirChecksGo cd root cs p h1
    exact ⟨n, hcd root n p hn⟩
  · obtain ⟨n, hn⟩ := mem_fileChecksGo cf root cs p h2
    exact ⟨n, hcf root n p hn⟩

mutual
theorem walkEntry_gt (cd cf : List Nat → List Nat → List Problem)
    (hcd : checkShape cd) (hcf : checkShape cf) :
    ∀ (e : Entry) (root : List Nat) (p : Problem),
      p ∈ walkEntry cd cf root e → root.length < p.path.length
  | Entry.file m, root, p, h => by
    rw [walkEntry_file] at h
    exact absurd h (by simp)
  | Entry.dir n cs, root, p, h => by
    rw [walkEntry_dir] at h
    rcases List.mem_append.mp h with h1 | h2
    · obtain ⟨m, hm⟩ := mem_tupleChecks cd cf hcd hcf (pathJoin root n) cs p h1
      rw [hm, pathJoin_length, pathJoin_length]
      omega
    · have hsub := walkSubs_gt cd cf hcd hcf cs (pathJoin root n) p h2
      rw [pathJoin_length] at hsub
      omega
theorem walkSubs_gt (cd cf : List Nat → List Nat → List Problem)
    (hcd : checkShape cd) (hcf : checkShape cf) :
    ∀ (cs : EntryList) (root : List Nat) (p : Problem),
      p ∈ walkSubs cd cf root cs → root.length < p.path.length
  | EntryList.nil, root, p, h => by
    rw [walkSubs_nil] at h
    exact absurd h (by simp)
  | EntryList.cons e l, root, p, h => by
    rw [walkSubs_cons] at h
    rcases List.mem_append.mp h with h1 | h2
    · exact walkEntry_gt cd cf hcd hcf e root p h1
    · exact walkSubs_gt cd cf hcd hcf l root p h2
end

theorem checkShape_checkDirMain : checkShape checkDirMain := by
  intro root n p h
  unfold checkDirMain at h
  rcases List.mem_append.mp h with h | h <;> split_ifs at h <;> simp_all
theorem checkShape_checkFileMain : checkShape checkFileMain := by
  intro root n p h
  unfold checkFileMain at h
  rcases List.mem_append.mp h with h | h <;> split_ifs at h <;> simp_all
theorem checkShape_checkDirEdit : checkShape checkDirEdit := by
  intro root n p h
  unfold checkDirEdit at h
  rcases List.mem_append.mp h with h | h <;> split_ifs at h <;> simp_all
theorem checkShape_checkFileEdit : checkShape checkFileEdit := by
  intro root n p h
  unfold checkFileEdit at h
  rcases List.mem_append.mp h with h | h <;> split_ifs at h <;> simp_all

theorem walkScan_gt (cd cf : List Nat → List Nat → List Problem)
    (hcd : checkShape cd) (hcf : checkShape cf) (root : List Nat) (cs : EntryList)
    (p : Problem) (h : p ∈ walkScan cd cf root cs) : root.length < p.path.length := by
  rcases List.mem_append.mp h with h1 | h2
  · obtain ⟨m, hm⟩ := mem_tupleChecks cd cf hcd hcf root cs p h1
    rw [hm, pathJoin_length]
    omega
  · exact walkSubs_gt cd cf hcd hcf cs root p h2

/-- C10: neither scanner version ever reports the root entry itself; every
problem record carries the path of a strict descendant (its path is
strictly longer than the root path), even when the root directory name or
path is itself over the limits. -/
theorem C10_root_never_reported :
    (∀ (root : List Nat) (cs : EntryList) (p : Problem),
      p ∈ scan_directory root cs → p.path ≠ root) ∧
    (∀ (root : List Nat) (cs : EntryList) (p : Problem),
      p ∈ scanDirectoryEdit root cs → p.path ≠ root) := by
  constructor
  · intro root cs p h heq
    have := walkScan_gt checkDirMain checkFileMain checkShape_checkDirMain
      checkShape_checkFileMain root cs p h
    rw [heq] at this
    omega
  · intro root cs p h heq
    have := walkScan_gt checkDirEdit checkFileEdit checkShape_checkDirEdit
      checkShape_checkFileEdit root cs p h
    rw [heq] at this
    omega

/-- C10 witness: in a tree rooted at r containing one directory with a
255-byte name, the reported violation does not carry the root path. -/
theorem C10_root_never_reported_witness :
    (⟨PKind.dirName, 255, pathJoin [114] (List.replicate 255 97)⟩ : Problem) ∈
      scan_directory [114]
        (EntryList.cons (Entry.dir (List.replicate 255 97) EntryList.nil)
          EntryList.nil) ∧
    (⟨PKind.dirName, 255, pathJoin [114] (List.replicate 255 97)⟩ : Problem).path ≠
      [114] :=
  ⟨by decide,
   C10_root_never_reported.1 [114]
     (EntryList.cons (Entry.dir (List.replicate 255 97) EntryList.nil) EntryList.nil)
     ⟨PKind.dirName, 255, pathJoin [114] (List.replicate 255 97)⟩ (by decide)⟩

theorem walkScan_single_dir (cd cf : List Nat → List Nat → List Problem)
    (root name : List Nat) :
    walkScan cd cf root (EntryList.cons (Entry.dir name EntryList.nil) EntryList.nil) =
      cd root name := by
  unfold walkScan tupleChecks
  rw [dirChecksGo_cons_dir, dirChecksGo_nil, fileChecksGo_cons_dir, fileChecksGo_nil,
    walkSubs_cons, walkSubs_nil, walkEntry_dir]
  unfold tupleChecks
  rw [dirChecksGo_nil, fileChecksGo_nil, walkSubs_nil]
  simp

theorem walkScan_single_file (cd cf : List Nat → List Nat → List Problem)
    (root name : List Nat) :
    walkScan cd cf root (EntryList.cons (Entry.file name) EntryList.nil) =
      cf root name := by
  unfold walkScan tupleChecks
  rw [dirChecksGo_cons_file, dirChecksGo_nil, fileChecksGo_cons_file, fileChecksGo_nil,
    walkSubs_cons, walkSubs_nil, walkEntry_file]
  simp

theorem checkDirMain_name_iff (root name : List Nat) :
    (∃ pr ∈ checkDirMain root name, pr.kind = PKind.dirName) ↔
      255 ≤ count_bytes name := by
  by_cases hc : 255 ≤ count_bytes name <;>
    by_cases hp : 4096 ≤ count_bytes (pathJoin root name) <;>
    simp [checkDirMain, hc, hp]

theorem checkDirMain_path_iff (root name : List Nat) :
    (∃ pr ∈ checkDirMain root name, pr.kind = PKind.dirPath) ↔
      4096 ≤ count_bytes (pathJoin root name) := by
  by_cases hc : 255 ≤ count_bytes name <;>
    by_cases hp : 4096 ≤ count_bytes (pathJoin root name) <;>
    simp [checkDirMain, hc, hp]

theorem checkFileMain_name_iff (root name : List Nat) :
    (∃ pr ∈ checkFileMain root name, pr.kind = PKind.fileName) ↔
      255 ≤ count_bytes name := by
  by_cases hc : 255 ≤ count_bytes name <;>
    by_cases hp : 4096 ≤ count_bytes (pathJoin root name) <;>
    simp [checkFileMain, hc, hp]

theorem checkFileMain_path_iff (root name : List Nat) :
    (∃ pr ∈ checkFileMain root name, pr.kind = PKind.filePath) ↔
      4096 ≤ count_bytes (pathJoin root name) := by
  by_cases hc : 255 ≤ count_bytes name <;>
    by_cases hp : 4096 ≤ count_bytes (pathJoin root name) <;>
    simp [checkFileMain, hc, hp]

theorem checkDirEdit_name_iff (root name : List Nat) :
    (∃ pr ∈ checkDirEdit root name, pr.kind = PKind.dirName) ↔
      255 < count_bytes name := by
  by_cases hc : 255 < count_bytes name <;>
    by_cases hp : 4096 < count_bytes (pathJoin root name) <;>
    simp [checkDirEdit, hc, hp]

theorem checkDirEdit_path_iff (root name : List Nat) :
    (∃ pr ∈ checkDirEdit root name, pr.kind = PKind.dirPath) ↔
      4096 < count_bytes (pathJoin root name) := by
  by_cases hc : 255 < count_bytes name <;>
    by_cases hp : 4096 < count_bytes (pathJoin root name) <;>
    simp [checkDirEdit, hc, hp]

theorem checkFileEdit_name_iff (root name : List Nat) :
    (∃ pr ∈ checkFileEdit root name, pr.kind = PKind.fileName) ↔
      255 ≤ count_bytes name := by
  by_cases hc : 255 ≤ count_bytes name <;>
    by_cases hp : 4096 ≤ count_bytes (pathJoin root name) <;>
    simp [checkFileEdit, hc, hp]

theorem checkFileEdit_path_iff (root name : List Nat) :
    (∃ pr ∈ checkFileEdit root name, pr.kind = PKind.filePath) ↔
      4096 ≤ count_bytes (pathJoin root name) := by
  by_cases hc : 255 ≤ count_bytes name <;>
    by_cases hp : 4096 ≤ count_bytes (pathJoin root name) <;>
    simp [checkFileEdit, hc, hp]

/-- C1 (amended): in too-long-for-linux.py a name violation is emitted
exactly when the component is at least 255 UTF-8 bytes and a path
violation exactly when the full path is at least 4096 bytes, for files
and directories alike.  In too-long-for-linux-edit.py this boundary holds
for files only; directory checks are strict, so a 255-byte directory name
or a 4096-byte directory path is not a violation there (boundary 256 and
4097). -/
theorem C1_amended_boundaries :
    ∀ root name : List Nat,
      ((∃ pr ∈ scan_directory root
          (EntryList.cons (Entry.dir name EntryList.nil) EntryList.nil),
        pr.kind = PKind.dirName) ↔ 255 ≤ count_bytes name) ∧
      ((∃ pr ∈ scan_directory root
          (EntryList.cons (Entry.dir name EntryList.nil) EntryList.nil),
        pr.kind = PKind.dirPath) ↔ 4096 ≤ count_bytes (pathJoin root name)) ∧
      ((∃ pr ∈ scan_directory root (EntryList.cons (Entry.file name) EntryList.nil),
        pr.kind = PKind.fileName) ↔ 255 ≤ count_bytes name) ∧
      ((∃ pr ∈ scan_directory root (EntryList.cons (Entry.file name) EntryList.nil),
        pr.kind = PKind.filePath) ↔ 4096 ≤ count_bytes (pathJoin root name)) ∧
      ((∃ pr ∈ scanDirectoryEdit root
          (EntryList.cons (Entry.dir name EntryList.nil) EntryList.nil),
        pr.kind = PKind.dirName) ↔ 255 < count_bytes name) ∧
      ((∃ pr ∈ scanDirectoryEdit root
          (EntryList.cons (Entry.dir name EntryList.nil) EntryList.nil),
        pr.kind = PKind.dirPath) ↔ 4096 < count_bytes (pathJoin root name)) ∧
      ((∃ pr ∈ scanDirectoryEdit root
          (EntryList.cons (Entry.file name) EntryList.nil),
        pr.kind = PKind.fileName) ↔ 255 ≤ count_bytes name) ∧
      ((∃ pr ∈ scanDirectoryEdit root
          (EntryList.cons (Entry.file name) EntryList.nil),
        pr.kind = PKind.filePath) ↔ 4096 ≤ count_bytes (pathJoin root name)) := by
  intro root name
  unfold scan_directory scanDirectoryEdit
  rw [walkScan_single_dir checkDirMain checkFileMain,
    walkScan_single_file checkDirMain checkFileMain,
    walkScan_single_dir checkDirEdit checkFileEdit,
    walkScan_single_file checkDirEdit checkFileEdit]
  exact ⟨checkDirMain_name_iff root name, checkDirMain_path_iff root name,
    checkFileMain_name_iff root name, checkFileMain_path_iff root name,
    checkDirEdit_name_iff root name, checkDirEdit_path_iff root name,
    checkFileEdit_name_iff root name, checkFileEdit_path_iff root name⟩

/-- C1 counterexample: a directory whose name is exactly 255 bytes is not
reported by the edit version, although the claim asserts that the
name-violation boundary (>= 255 bytes) holds for directories in both
source versions. -/
theorem C1_cex_edit_dir_255_not_flagged :
    count_bytes (List.replicate 255 97) = 255 ∧
    scanDirectoryEdit [114]
      (EntryList.cons (Entry.dir (List.replicate 255 97) EntryList.nil)
        EntryList.nil) = [] := by
  constructor
  · decide
  · decide

theorem lookupA_nil (k : List Nat) : lookupA [] k = none := rfl

theorem lookupA_cons (n : List Nat) (e : FsEntry) (r : List (List Nat × FsEntry))
    (k : List Nat) : lookupA ((n, e) :: r) k = if n = k then some e else lookupA r k :=
  rfl

theorem removeKey_nil (k : List Nat) : removeKey [] k = [] := rfl

theorem removeKey_cons (n : List Nat) (e : FsEntry) (r : List (List Nat × FsEntry))
    (k : List Nat) :
    removeKey ((n, e) :: r) k = if n = k then r else (n, e) :: removeKey r k := rfl

theorem allocGo_zero (dirC : List (List Nat × FsEntry)) (cand : Nat → List Nat)
    (cur : List Nat) (counter : Nat) : allocGo dirC cand 0 cur counter = none := rfl

theorem allocGo_succ (dirC : List (List Nat × FsEntry)) (cand : Nat → List Nat)
    (f : Nat) (cur : List Nat) (counter : Nat) :
    allocGo dirC cand (f + 1) cur counter =
      if existsName dirC cur then allocGo dirC cand f (cand counter) (counter + 1)
      else some cur := rfl

theorem allocGo_not_exists (dirC : List (List Nat × FsEntry)) (cand : Nat → List Nat) :
    ∀ (f : Nat) (cur : List Nat) (counter : Nat) (r : List Nat),
      allocGo dirC cand f cur counter = some r → existsName dirC r = false := by
  intro f
  induction f with
  | zero => intro cur counter r h; exact absurd h (by simp [allocGo_zero])
  | succ f ih =>
    intro cur counter r h
    rw [allocGo_succ] at h
    by_cases he : existsName dirC cur
    · rw [if_pos he] at h
      exact ih _ _ _ h
    · rw [if_neg he] at h
      have h2 := Option.some.inj h
      rw [← h2]
      exact Bool.not_eq_true _ ▸ he

theorem lookupA_append_none (l1 l2 : List (List Nat × FsEntry)) (k : List Nat)
    (h : lookupA l1 k = none) : lookupA (l1 ++ l2) k = lookupA l2 k := by
  induction l1 with
  | nil => simp
  | cons a r ih =>
    obtain ⟨n, e⟩ := a
    rw [lookupA_cons] at h
    by_cases hk : n = k
    · rw [if_pos hk] at h
      exact absurd h (by simp)
    · rw [if_neg hk] at h
      show lookupA ((n, e) :: (r ++ l2)) k = lookupA l2 k
      rw [lookupA_cons, if_neg hk]
      exact ih h

theorem lookupA_removeKey_none (l : List (List Nat × FsEntry)) (k o : List Nat)
    (h : lookupA l k = none) : lookupA (removeKey l o) k = none := by
  induction l with
  | nil => simp [removeKey_nil, lookupA_nil]
  | cons a r ih =>
    obtain ⟨n, e⟩ := a
    rw [lookupA_cons] at h
    by_cases hk : n = k
    · rw [if_pos hk] at h
      exact absurd h (by simp)
    · rw [if_neg hk] at h
      rw [removeKey_cons]
      by_cases ho : n = o
      · rw [if_pos ho]
        exact h
      · rw [if_neg ho, lookupA_cons, if_neg hk]
        exact ih h

theorem lookupA_of_mem_nodup :
    ∀ (l : List (List Nat × FsEntry)) (n : List Nat) (e : FsEntry),
      (l.map Prod.fst).Nodup → (n, e) ∈ l → lookupA l n = some e := by
  intro l
  induction l with
  | nil => intro n e _ h; exact absurd h (by simp)
  | cons a r ih =>
    intro n e hnd hmem
    obtain ⟨m, e2⟩ := a
    simp only [List.map_cons, List.nodup_cons] at hnd
    rcases List.mem_cons.mp hmem with h | h
    · injection h with hn he
      subst hn
      subst he
      rw [lookupA_cons, if_pos rfl]
    · by_cases hmn : m = n
      · exfalso
        apply hnd.1
        rw [hmn]
        exact List.mem_map.mpr ⟨(n, e), h, rfl⟩
      · rw [lookupA_cons, if_neg hmn]
        exact ih n e hnd.2 h

/-- C4: collision-safe allocation is deterministic from the directory
contents: with foo, foo_1 and foo_2 already present, allocating for
desired name foo yields foo_3 (the bytes of f, o, o, underscore, 3); and
whenever the loop returns a name, that name does not exist in the
directory at the time of the check. -/
theorem C4_alloc_unique :
    create_safe_directory_name occFoo fooN 10 = some [102, 111, 111, 95, 51] ∧
    ∀ (dirC : List (List Nat × FsEntry)) (desired : List Nat) (fuel : Nat)
      (r : List Nat),
      create_safe_directory_name dirC desired fuel = some r →
      existsName dirC r = false := by
  constructor
  · decide
  · intro dirC desired fuel r h
    exact allocGo_not_exists dirC (candDir desired) fuel (candInit desired) 1 r h

/-- C4 witness: the concrete foo_3 allocation does not collide with the
directory contents. -/
theorem C4_alloc_unique_witness :
    existsName occFoo [102, 111, 111, 95, 51] = false :=
  C4_alloc_unique.2 occFoo fooN 10 [102, 111, 111, 95, 51] C4_alloc_unique.1

/-- C3: a successful directory split fix relocates every direct child of
the original directory (with distinct names, as on a real filesystem)
under the newly created two-level structure: each child is reachable
there with its original name and unchanged entry, so none is lost or
merged. -/
theorem C3_dir_split_preserves_children :
    ∀ (parent : List (List Nat × FsEntry)) (origName part1 part2 : List Nat)
      (fuel : Nat) (cs res : List (List Nat × FsEntry)) (log : List Op) (msg : Msg),
      (cs.map Prod.fst).Nodup →
      lookupA parent origName = some (FsEntry.dir cs) →
      fixDirectorySplit parent origName part1 part2 fuel = Except.ok (res, log, msg) →
      ∃ np leaf, ∀ c ∈ cs, lookupPath res [np, leaf, c.1] = some c.2 := by
  intro parent origName part1 part2 fuel cs res log msg hnd hlook hfix
  unfold fixDirectorySplit at hfix
  cases halloc : create_safe_directory_name parent part1 fuel with
  | none => rw [halloc] at hfix; exact absurd hfix (by simp)
  | some np =>
    rw [halloc] at hfix
    cases hleaf : allocGo [] (candDir part2) fuel part2 1 with
    | none => rw [hleaf] at hfix; exact absurd hfix (by simp)
    | some leaf =>
      rw [hleaf, hlook] at hfix
      simp only [Except.ok.injEq, Prod.mk.injEq] at hfix
      obtain ⟨hres, _, _⟩ := hfix
      refine ⟨np, leaf, ?_⟩
      intro c hc
      have hnp : lookupA parent np = none := by
        have := allocGo_not_exists parent (candDir part1) fuel (candInit part1) 1 np
          halloc
        unfold existsName at this
        exact Option.not_isSome_iff_eq_none.mp (by simp [this])
      have h1 : lookupA res np = some (FsEntry.dir [(leaf, FsEntry.dir cs)]) := by
        rw [← hres]
        rw [lookupA_append_none _ _ _ (lookupA_removeKey_none parent np origName hnp)]
        rw [lookupA_cons, if_pos rfl]
      show lookupPath res [np, leaf, c.1] = some c.2
      unfold lookupPath
      rw [h1]
      show lookupPath [(leaf, FsEntry.dir cs)] [leaf, c.1] = some c.2
      unfold lookupPath
      rw [lookupA_cons, if_pos rfl]
      show lookupPath cs [c.1] = some c.2
      unfold lookupPath
      exact lookupA_of_mem_nodup cs c.1 c.2 hnd hc

theorem filter_map_eq_nil {β : Type} (p : Op → Bool) (g : β → Op)
    (hg : ∀ x, p (g x) = false) : ∀ l : List β, (l.map g).filter p = [] := by
  intro l
  induction l with
  | nil => rfl
  | cons a r ih => simp [hg, ih]

theorem length_filter_map_eq {β : Type} (p : Op → Bool) (g : β → Op)
    (hg : ∀ x, p (g x) = true) : ∀ l : List β, ((l.map g).filter p).length = l.length := by
  intro l
  induction l with
  | nil => rfl
  | cons a r ih => simp [hg, ih]

/-- C7 (amended): a successful file split fix creates exactly one new
directory, moves exactly one entry and deletes nothing; a successful
directory split fix creates exactly two new directories (the intermediate
part1 directory and the part2 leaf), moves each direct child of the
original directory one level deeper, and its only deletion is the rmdir
of the emptied original shell — no file content is ever deleted.  This
corrects the claimed "at most one new directory", which the directory
split exceeds. -/
theorem C7_amended_fix_effects :
    (∀ (parent : List (List Nat × FsEntry)) (orig p1 p2 : List Nat) (fuel : Nat)
      (res : List (List Nat × FsEntry)) (log : List Op) (msg : Msg),
      fixFileSplit parent orig p1 p2 fuel = Except.ok (res, log, msg) →
      (log.filter isMkdirB).length = 1 ∧ (log.filter isMoveB).length = 1 ∧
        log.filter isRmdirB = []) ∧
    (∀ (parent : List (List Nat × FsEntry)) (orig p1 p2 : List Nat) (fuel : Nat)
      (cs res : List (List Nat × FsEntry)) (log : List Op) (msg : Msg),
      lookupA parent orig = some (FsEntry.dir cs) →
      fixDirectorySplit parent orig p1 p2 fuel = Except.ok (res, log, msg) →
      (log.filter isMkdirB).length = 2 ∧ (log.filter isMoveB).length = cs.length ∧
        log.filter isRmdirB = [Op.rmdir [orig]]) := by
  constructor
  · intro parent orig p1 p2 fuel res log msg hfix
    unfold fixFileSplit at hfix
    cases halloc : create_safe_directory_name parent p1 fuel with
    | none => rw [halloc] at hfix; exact absurd hfix (by simp)
    | some np =>
      rw [halloc] at hfix
      cases hleaf : allocGo [] (candFile p2) fuel p2 1 with
      | none => rw [hleaf] at hfix; exact absurd hfix (by simp)
      | some leaf =>
        rw [hleaf] at hfix
        cases hlook : lookupA parent orig with
        | none => rw [hlook] at hfix; exact absurd hfix (by simp)
        | some e =>
          rw [hlook] at hfix
          simp only [Except.ok.injEq, Prod.mk.injEq] at hfix
          obtain ⟨_, hlog, _⟩ := hfix
          rw [← hlog]
          simp [List.filter, isMkdirB, isMoveB, isRmdirB]
  · intro parent orig p1 p2 fuel cs res log msg hlook hfix
    unfold fixDirectorySplit at hfix
    cases halloc : create_safe_directory_name parent p1 fuel with
    | none => rw [halloc] at hfix; exact absurd hfix (by simp)
    | some np =>
      rw [halloc] at hfix
      cases hleaf : allocGo [] (candDir p2) fuel p2 1 with
      | none => rw [hleaf] at hfix; exact absurd hfix (by simp)
      | some leaf =>
        rw [hleaf, hlook] at hfix
        simp only [Except.ok.injEq, Prod.mk.injEq] at hfix
        obtain ⟨_, hlog, _⟩ := hfix
        rw [← hlog]
        refine ⟨?_, ?_, ?_⟩
        · rw [List.filter_append, List.filter_append]
          rw [filter_map_eq_nil isMkdirB (fun c => Op.move [orig, c.1] [np, leaf, c.1]) (fun x => rfl) cs]
          simp [List.filter, isMkdirB]
        · rw [List.filter_append, List.filter_append]
          rw [show List.filter isMoveB [Op.mkdir [np], Op.mkdir [np, leaf]] = []
            from rfl]
          rw [show List.filter isMoveB [Op.rmdir [orig]] = [] from rfl]
          rw [List.nil_append, List.append_nil]
          exact length_filter_map_eq isMoveB (fun c => Op.move [orig, c.1] [np, leaf, c.1]) (fun x => rfl) cs
        · rw [List.filter_append, List.filter_append]
          rw [show List.filter isRmdirB [Op.mkdir [np], Op.mkdir [np, leaf]] = []
            from rfl]
          rw [filter_map_eq_nil isRmdirB (fun c => Op.move [orig, c.1] [np, leaf, c.1]) (fun x => rfl) cs]
          rfl

/-- C7 witness: concrete successful file split and directory split fixes
with the stated effect counts. -/
theorem C7_amended_fix_effects_witness :
    (([Op.mkdir [[112]], Op.move [[100]] [[112], [113]]].filter isMkdirB).length = 1 ∧
      ([Op.mkdir [[112]], Op.move [[100]] [[112], [113]]].filter isMoveB).length = 1 ∧
      [Op.mkdir [[112]], Op.move [[100]] [[112], [113]]].filter isRmdirB = []) ∧
    (([Op.mkdir [[112]], Op.mkdir [[112], [113]],
        Op.move [[100], [99]] [[112], [113], [99]],
        Op.rmdir [[100]]].filter isMkdirB).length = 2 ∧
      ([Op.mkdir [[112]], Op.mkdir [[112], [113]],
        Op.move [[100], [99]] [[112], [113], [99]],
        Op.rmdir [[100]]].filter isMoveB).length =
          ([([99], FsEntry.file 1)] : List (List Nat × FsEntry)).length ∧
      [Op.mkdir [[112]], Op.mkdir [[112], [113]],
        Op.move [[100], [99]] [[112], [113], [99]],
        Op.rmdir [[100]]].filter isRmdirB = [Op.rmdir [[100]]]) :=
  ⟨C7_amended_fix_effects.1 [([100], FsEntry.file 5)] [100] [112] [113] 3
      [([112], FsEntry.dir [([113], FsEntry.file 5)])]
      [Op.mkdir [[112]], Op.move [[100]] [[112], [113]]] Msg.fileMoved rfl,
   C7_amended_fix_effects.2 c7Parent [100] [112] [113] 3
      [([99], FsEntry.file 1)]
      [([112], FsEntry.dir [([113], FsEntry.dir [([99], FsEntry.file 1)])])]
      [Op.mkdir [[112]], Op.mkdir [[112], [113]],
        Op.move [[100], [99]] [[112], [113], [99]], Op.rmdir [[100]]]
      Msg.dirMoved rfl rfl⟩

/-- C7 counterexample: a concrete successful directory split fix creates
two directories, refuting the claim that one fix operation creates at
most one new directory. -/
theorem C7_cex_dir_split_two_mkdirs :
    fixDirectorySplit c7Parent [100] [112] [113] 5 =
      Except.ok
        ([([112], FsEntry.dir [([113], FsEntry.dir [([99], FsEntry.file 1)])])],
         [Op.mkdir [[112]], Op.mkdir [[112], [113]],
          Op.move [[100], [99]] [[112], [113], [99]], Op.rmdir [[100]]],
         Msg.dirMoved) ∧
    ¬ (([Op.mkdir [[112]], Op.mkdir [[112], [113]],
        Op.move [[100], [99]] [[112], [113], [99]],
        Op.rmdir [[100]]].filter isMkdirB).length ≤ 1) := by
  constructor
  · rfl
  · decide

/-- C3 witness: the concrete directory split of C7 preserves its single
child under the new structure. -/
theorem C3_dir_split_preserves_children_witness :
    (([([99], FsEntry.file 1)].map Prod.fst).Nodup) ∧
    lookupA c7Parent [100] = some (FsEntry.dir [([99], FsEntry.file 1)]) ∧
    ∃ np leaf, ∀ c ∈ ([([99], FsEntry.file 1)] : List (List Nat × FsEntry)),
      lookupPath [([112], FsEntry.dir [([113], FsEntry.dir [([99], FsEntry.file 1)])])]
        [np, leaf, c.1] = some c.2 :=
  ⟨by decide, lookupA_of_mem_nodup c7Parent [100] (FsEntry.dir [([99], FsEntry.file 1)])
      (by decide) (by simp [c7Parent]),
   C3_dir_split_preserves_children c7Parent [100] [112] [113] 5
      [([99], FsEntry.file 1)]
      [([112], FsEntry.dir [([113], FsEntry.dir [([99], FsEntry.file 1)])])]
      [Op.mkdir [[112]], Op.mkdir [[112], [113]],
        Op.move [[100], [99]] [[112], [113], [99]], Op.rmdir [[100]]]
      Msg.dirMoved (by decide) rfl rfl⟩

/-- C6 (amended): for any path violation handed to fix_long_name the
dispatch matches neither FILE_NAME nor DIR_NAME (DIR_PATH and FILE_PATH
contain no NAME substring), so the call performs no filesystem change,
records no operation, and returns the unknown-problem-type message as an
ordinary return value — it does not raise; moreover apply_fixes filters
on the NAME substring, so path violations are never handed to the fixer
at all. -/
theorem C6_amended_path_refused_without_error :
    ∀ (parent : List (List Nat × FsEntry)) (nm : List Nat) (fuel : Nat),
      fix_long_name DIR_PATH_T parent nm fuel = Except.ok (parent, [], Msg.unknown) ∧
      fix_long_name FILE_PATH_T parent nm fuel = Except.ok (parent, [], Msg.unknown) ∧
      containsSeq NAME_T DIR_PATH_T = false ∧
      containsSeq NAME_T FILE_PATH_T = false :=
  fun parent nm fuel => ⟨rfl, rfl, by decide, by decide⟩

/-- C6 counterexample: a concrete path violation handed to fix_long_name
returns normally with the unknown-problem message and the directory
unchanged; no exception is raised, refuting the claimed deterministic
failure. -/
theorem C6_cex_path_violation_returns_ok :
    fix_long_name DIR_PATH_T [([97], FsEntry.file 0)] [97] 3 =
      Except.ok ([([97], FsEntry.file 0)], [], Msg.unknown) ∧
    fix_long_name FILE_PATH_T [([97], FsEntry.file 0)] [97] 3 =
      Except.ok ([([97], FsEntry.file 0)], [], Msg.unknown) :=
  ⟨rfl, rfl⟩

theorem applyFixesGo_nil (fuel : Nat) (st : List (List Nat × FsEntry)) :
    applyFixesGo fuel st [] = (st, []) := rfl

theorem applyFixesGo_cons (fuel : Nat) (st : List (List Nat × FsEntry))
    (pt : List Nat) (len : Nat) (nm : List Nat)
    (rest : List (List Nat × Nat × List Nat)) :
    applyFixesGo fuel st ((pt, len, nm) :: rest) =
      match fix_long_name pt st nm fuel with
      | Except.ok (st2, _ops, msg) =>
        ((applyFixesGo fuel st2 rest).1, Except.ok msg :: (applyFixesGo fuel st2 rest).2)
      | Except.error e =>
        ((applyFixesGo fuel st rest).1,
          Except.error e :: (applyFixesGo fuel st rest).2) := rfl

theorem applyFixesGo_length (fuel : Nat) :
    ∀ (l : List (List Nat × Nat × List Nat)) (st : List (List Nat × FsEntry)),
      ((applyFixesGo fuel st l).2).length = l.length := by
  intro l
  induction l with
  | nil => intro st; rfl
  | cons p rest ih =>
    intro st
    obtain ⟨pt, len, nm⟩ := p
    rw [applyFixesGo_cons]
    cases h : fix_long_name pt st nm fuel with
    | ok val =>
      obtain ⟨st2, ops, msg⟩ := val
      simp [ih st2]
    | error e => simp [ih st]

theorem length_filter_add_length_filter_not {α : Type} (p : α → Bool) :
    ∀ l : List α,
      (l.filter p).length + (l.filter (fun x => !p x)).length = l.length := by
  intro l
  induction l with
  | nil => rfl
  | cons a r ih =>
    by_cases h : p a = true
    · simp [List.filter_cons, h]
      omega
    · simp only [Bool.not_eq_true] at h
      simp [List.filter_cons, h]
      omega

theorem fix_file_name_missing_source (parent : List (List Nat × FsEntry))
    (nm : List Nat) (fuel : Nat) (hnone : lookupA parent nm = none) :
    exceptOk (fix_long_name FILE_NAME_T parent nm fuel) = false := by
  rw [show fix_long_name FILE_NAME_T parent nm fuel =
      (match split_filename nm with
       | (_, none) => fixFileSimple parent nm fuel
       | (p1, some p2) => fixFileSplit parent nm p1 p2 fuel) from rfl]
  cases hs : split_filename nm with
  | mk p1 op2 =>
    cases op2 with
    | none =>
      show exceptOk (fixFileSimple parent nm fuel) = false
      unfold fixFileSimple
      cases ha : allocGo parent (candFile nm) fuel (safe_truncate nm 250) 1 with
      | none => rfl
      | some nn => rw [hnone]; rfl
    | some p2 =>
      show exceptOk (fixFileSplit parent nm p1 p2 fuel) = false
      unfold fixFileSplit
      cases ha : create_safe_directory_name parent p1 fuel with
      | none => rfl
      | some np =>
        cases hb : allocGo [] (candFile p2) fuel p2 1 with
        | none => rfl
        | some leaf => rw [hnone]; rfl

theorem fix_dir_name_missing_source (parent : List (List Nat × FsEntry))
    (nm : List Nat) (fuel : Nat) (hnone : lookupA parent nm = none) :
    exceptOk (fix_long_name DIR_NAME_T parent nm fuel) = false := by
  rw [show fix_long_name DIR_NAME_T parent nm fuel =
      (match split_directory_name nm with
       | (_, none) => fixDirectorySimple parent nm fuel
       | (p1, some p2) => fixDirectorySplit parent nm p1 p2 fuel) from rfl]
  cases hs : split_directory_name nm with
  | mk p1 op2 =>
    cases op2 with
    | none =>
      show exceptOk (fixDirectorySimple parent nm fuel) = false
      unfold fixDirectorySimple
      cases ha : allocGo parent (candDir nm) fuel (safe_truncate nm 250) 1 with
      | none => rfl
      | some nn => rw [hnone]; rfl
    | some p2 =>
      show exceptOk (fixDirectorySplit parent nm p1 p2 fuel) = false
      unfold fixDirectorySplit
      cases ha : create_safe_directory_name parent p1 fuel with
      | none => rfl
      | some np =>
        cases hb : allocGo [] (candDir p2) fuel p2 1 with
        | none => rfl
        | some leaf => rw [hnone]; rfl

/-- C8: the fix batch never aborts: apply_fixes produces one recorded
outcome for every name violation, whatever mix of successes and caught
errors occurs along the way; every outcome is counted either as fixed or
as a reported error, none is dropped; and a violation whose source path
no longer exists at fix time makes fix_long_name return a caught error
value (the modeled FileNotFoundError) rather than a success or a crash. -/
theorem C8_batch_continues_on_error :
    (∀ (fuel : Nat) (st : List (List Nat × FsEntry))
      (ps : List (List Nat × Nat × List Nat)),
      ((apply_fixes ps st fuel).2).length = (nameProblems ps).length) ∧
    (∀ outs : List (Except FsErr Msg),
      fixedCount outs + (outs.filter (fun o => !exceptOk o)).length = outs.length) ∧
    (∀ (parent : List (List Nat × FsEntry)) (nm : List Nat) (fuel : Nat),
      lookupA parent nm = none →
      exceptOk (fix_long_name FILE_NAME_T parent nm fuel) = false ∧
      exceptOk (fix_long_name DIR_NAME_T parent nm fuel) = false) := by
  refine ⟨?_, ?_, ?_⟩
  · intro fuel st ps
    exact applyFixesGo_length fuel (nameProblems ps) st
  · intro outs
    exact length_filter_add_length_filter_not exceptOk outs
  · intro parent nm fuel hnone
    exact ⟨fix_file_name_missing_source parent nm fuel hnone,
      fix_dir_name_missing_source parent nm fuel hnone⟩

/-- C8 witness: with an empty directory state the source [97] is missing
and both fix dispatches report a caught error. -/
theorem C8_batch_continues_on_error_witness :
    lookupA [] [97] = none ∧
    (exceptOk (fix_long_name FILE_NAME_T [] [97] 1) = false ∧
     exceptOk (fix_long_name DIR_NAME_T [] [97] 1) = false) :=
  ⟨rfl, C8_batch_continues_on_error.2.2 [] [97] 1 rfl⟩

theorem c9_candInit_eq : candInit c9Desired = c9Bad := by decide

theorem c9_cand_const : ∀ c, candDir c9Desired c = c9Bad := by
  intro c
  unfold candDir clampTo255 safe_truncate count_bytes
  rw [show stemOf c9Desired = c9Desired from by decide]
  rw [show takeChars 200 c9Desired = c9Desired from by decide]
  have hlen : (c9Desired ++ 95 :: natToBytes c).length =
      401 + (natToBytes c).length := by
    rw [List.length_append, show c9Desired.length = 400 from by decide]
    simp
    omega
  rw [if_pos (show 255 < (c9Desired ++ 95 :: natToBytes c).length from by
    rw [hlen]; omega)]
  rw [if_neg (show ¬ (c9Desired ++ 95 :: natToBytes c).length ≤ 250 from by
    rw [hlen]; omega)]
  rw [List.take_append_of_le_length
    (show 250 ≤ c9Desired.length from by
      rw [show c9Desired.length = 400 from by decide]; omega)]
  decide

theorem c9_loop_none : ∀ (f counter : Nat),
    allocGo [(c9Bad, FsEntry.dir [])] (candDir c9Desired) f c9Bad counter = none := by
  intro f
  induction f with
  | zero => intro counter; rfl
  | succ f ih =>
    intro counter
    rw [allocGo_succ]
    rw [if_pos (show existsName [(c9Bad, FsEntry.dir [])] c9Bad = true from by decide)]
    rw [c9_cand_const counter]
    exact ih (counter + 1)

/-- C9: the collision loop of create_safe_directory need not terminate.
With the 400-byte desired name of 200 two-byte characters, every loop
candidate (stem[:200] + underscore + counter) exceeds 255 bytes and is
re-truncated to its first 250 bytes, which cuts the counter digits off:
all candidates are the same 250-byte name.  If the directory already
contains that name, no amount of fuel finds a free candidate, so the
claimed termination for every directory state is false; the Python loop
runs forever on this input, against the intent that a free name is
eventually found. -/
theorem C9_alloc_loop_nontermination :
    ¬ ∀ (dirC : List (List Nat × FsEntry)) (desired : List Nat),
        ∃ fuel, (create_safe_directory_name dirC desired fuel).isSome = true := by
  intro h
  obtain ⟨fuel, hf⟩ := h [(c9Bad, FsEntry.dir [])] c9Desired
  unfold create_safe_directory_name at hf
  rw [c9_candInit_eq, c9_loop_none fuel 1] at hf
  simp at hf
